import Mathlib

/-!
Verification development for the code-knowledge-tree server
(`src/code_knowledge_server.py`).  The store of elements (one JSON file per
element id under `elements/`) is embedded as a list of records with unique
ids; each tool operation is translated into a pure function from the store
to a result together with the updated store.  Timestamps are threaded as an
explicit `now` string.
-/

namespace KnowledgeServer

/-- Mirror of the `CodeElement` dataclass. -/
structure CodeElement where
  id : String
  type : String
  code : String
  description : String
  dependencies : List String
  dependents : List String
  source_file : Option String
  line_range : Option String
  created_at : String
  updated_at : String
deriving Repr, DecidableEq

/-- The on-disk element store: one record per element id. -/
abbrev Store := List CodeElement

/-- Python `str.strip()`: drop leading and trailing whitespace.  (Defined
structurally over the character list so that it evaluates in the kernel.) -/
def strip (s : String) : String :=
  String.mk ((s.data.dropWhile Char.isWhitespace).reverse.dropWhile Char.isWhitespace).reverse

/-- `load_element`: look up the record with the given id (file `id.json`). -/
def load_element : Store → String → Option CodeElement
  | [], _ => none
  | e :: rest, i => if e.id = i then some e else load_element rest i

/-- The timestamp stamping performed by `save_element`: `updated_at` is always
refreshed, `created_at` is set only when still empty. -/
def stamp (e : CodeElement) (now : String) : CodeElement :=
  let e1 := { e with updated_at := now }
  if e1.created_at = "" then { e1 with created_at := now } else e1

/-- Writing the record file: replace the record with the same id, or create
a new file when none exists. -/
def save_list : Store → CodeElement → Store
  | [], e => [e]
  | x :: rest, e => if x.id = e.id then e :: rest else x :: save_list rest e

/-- `save_element`: stamp the timestamps and write the record. -/
def save_element (store : Store) (e : CodeElement) (now : String) : Store :=
  save_list store (stamp e now)

/-- `element_file.unlink()`: delete the record with the given id. -/
def delete_record : Store → String → Store
  | [], _ => []
  | x :: rest, i => if x.id = i then rest else x :: delete_record rest i

/-- The dependents-update pass shared by `add_code_element`,
`edit_dependencies` and `update_code_element`: for each dependency id, load
it; when it exists append `eid` to its `dependents` (if not already present)
and save, collecting the existing ids; otherwise collect it as missing. -/
def dependents_pass (eid now : String) : Store → List String → Store × List String × List String
  | st, [] => (st, [], [])
  | st, dep_id :: rest =>
    match load_element st dep_id with
    | some dep_element =>
      let st1 := if eid ∈ dep_element.dependents then st
        else save_element st { dep_element with dependents := dep_element.dependents ++ [eid] } now
      let res := dependents_pass eid now st1 rest
      (res.1, dep_id :: res.2.1, res.2.2)
    | none =>
      let res := dependents_pass eid now st rest
      (res.1, res.2.1, dep_id :: res.2.2)

/-- The cleanup pass of `edit_dependencies` / `update_code_element`: every
original dependency that is no longer listed has `eid` removed from its
`dependents` (when that record exists and lists `eid`). -/
def cleanup_pass (eid now : String) (newDeps : List String) : Store → List String → Store
  | st, [] => st
  | st, old_dep :: rest =>
    let st1 :=
      if old_dep ∈ newDeps then st
      else
        match load_element st old_dep with
        | some ode =>
          if eid ∈ ode.dependents then
            save_element st { ode with dependents := ode.dependents.erase eid } now
          else st
        | none => st
    cleanup_pass eid now newDeps st1 rest

/-- Result shape of the dependency analysis returned by `add_code_element`. -/
structure DepAnalysis where
  total_dependencies : Nat
  existing_dependencies : List String
  missing_dependencies : List String
  missing_count : Nat
deriving Repr, DecidableEq

structure AddResult where
  success : Bool
  message : String
  dependency_analysis : Option DepAnalysis
deriving Repr, DecidableEq

/-- The `CodeElement(...)` constructor call of `add_code_element`: code is
stripped, `dependents` starts empty, and falsy (empty) provenance strings
become absent. -/
def new_element (element_id element_type code description : String)
    (dependencies : List String) (source_file line_range : String) : CodeElement :=
  { id := element_id, type := element_type, code := strip code, description := description
    dependencies := dependencies, dependents := []
    source_file := if source_file = "" then none else some source_file
    line_range := if line_range = "" then none else some line_range
    created_at := "", updated_at := "" }

/-- `add_code_element`: fails when the id already exists; otherwise persists
the new element and then runs the dependents-update pass over the declared
dependencies. -/
def add_code_element (store : Store) (element_id element_type code description : String)
    (dependencies : List String) (source_file line_range now : String) : AddResult × Store :=
  match load_element store element_id with
  | some _ =>
    ({ success := false
       message := "Element " ++ element_id ++ " already exists. Use update_code_element to modify it."
       dependency_analysis := none }, store)
  | none =>
    let deps_list := dependencies
    let element : CodeElement :=
      new_element element_id element_type code description deps_list source_file line_range
    let store1 := save_element store element now
    let p := dependents_pass element_id now store1 deps_list
    ({ success := true
       message := "Successfully added " ++ element_type ++ " " ++ element_id
       dependency_analysis := some
         { total_dependencies := deps_list.length
           existing_dependencies := p.2.1
           missing_dependencies := p.2.2
           missing_count := p.2.2.length } }, p.1)

/-- The mode dispatch of `edit_dependencies`: `replace` installs the list,
`add` appends unseen ids, `remove` deletes each requested id (one list
removal per request, i.e. the first occurrence), anything else is invalid. -/
def apply_operation (current dependencies : List String) (operation : String) :
    Option (List String) :=
  if operation = "replace" then some dependencies
  else if operation = "add" then
    some (dependencies.foldl (fun acc dep => if dep ∈ acc then acc else acc ++ [dep]) current)
  else if operation = "remove" then
    some (dependencies.foldl (fun acc dep => if dep ∈ acc then acc.erase dep else acc) current)
  else none

structure DepChanges where
  operation : String
  original_dependencies : List String
  new_dependencies : List String
  existing_dependencies : List String
  missing_dependencies : List String
  missing_count : Nat
deriving Repr, DecidableEq

structure EditResult where
  success : Bool
  message : String
  dependency_changes : Option DepChanges
deriving Repr, DecidableEq

/-- `edit_dependencies`: fails when the element is absent or the mode is
invalid; otherwise saves the new dependency list, removes the element from
the dependents of dropped dependencies, and appends it to the dependents of
the (existing) new dependencies. -/
def edit_dependencies (store : Store) (element_id : String) (dependencies : List String)
    (operation now : String) : EditResult × Store :=
  match load_element store element_id with
  | none =>
    ({ success := false
       message := "Element " ++ element_id ++ " not found. Add it first with add_code_element."
       dependency_changes := none }, store)
  | some element =>
    let original_deps := element.dependencies
    match apply_operation element.dependencies dependencies operation with
    | none =>
      ({ success := false
         message := "Invalid operation: " ++ operation ++ ". Use replace, add, or remove."
         dependency_changes := none }, store)
    | some newDeps =>
      let element1 := { element with dependencies := newDeps }
      let store1 := save_element store element1 now
      let store2 := cleanup_pass element_id now newDeps store1 original_deps
      let p := dependents_pass element_id now store2 newDeps
      ({ success := true
         message := "Successfully " ++ operation ++ "d dependencies for " ++ element_id
         dependency_changes := some
           { operation := operation
             original_dependencies := original_deps
             new_dependencies := newDeps
             existing_dependencies := p.2.1
             missing_dependencies := p.2.2
             missing_count := p.2.2.length } }, p.1)

structure GetResult where
  success : Bool
  message : String
  element : Option CodeElement
deriving Repr, DecidableEq

/-- `get_element`: report the stored record, or absence. -/
def get_element (store : Store) (element_id : String) : GetResult :=
  match load_element store element_id with
  | none =>
    { success := false
      message := "Element " ++ element_id ++ " not found in knowledge tree"
      element := none }
  | some e => { success := true, message := "", element := some e }

structure UpdateDepAnalysis where
  original_dependencies : List String
  new_dependencies : List String
  existing_dependencies : List String
  missing_dependencies : List String
  missing_count : Nat
deriving Repr, DecidableEq

structure UpdateResult where
  success : Bool
  message : String
  updated_fields : List String
  dependency_analysis : Option UpdateDepAnalysis
deriving Repr, DecidableEq

/-- `update_code_element`: only fields whose string strips to non-empty are
overwritten; a provided `dependencies` list (even `[]`) replaces the current
one and runs the cleanup and dependents passes; with no effective field the
call fails.  Note that the element record itself is saved only at the very
end, from the object loaded at the start. -/
def update_code_element (store : Store) (element_id code description : String)
    (dependencies : Option (List String)) (source_file line_range now : String) :
    UpdateResult × Store :=
  match load_element store element_id with
  | none =>
    ({ success := false
       message := "Element " ++ element_id ++ " not found. Use add_code_element to create it."
       updated_fields := [], dependency_analysis := none }, store)
  | some element0 =>
    let original_deps := element0.dependencies
    let s1 :=
      if strip code ≠ "" then ({ element0 with code := strip code }, ["code"])
      else (element0, ([] : List String))
    let s2 :=
      if strip description ≠ "" then ({ s1.1 with description := description }, s1.2 ++ ["description"])
      else s1
    let s3 :=
      if strip source_file ≠ "" then ({ s2.1 with source_file := some source_file }, s2.2 ++ ["source_file"])
      else s2
    let s4 :=
      if strip line_range ≠ "" then ({ s3.1 with line_range := some line_range }, s3.2 ++ ["line_range"])
      else s3
    match dependencies with
    | none =>
      if s4.2.isEmpty then
        ({ success := false
           message := "No fields provided for update. Specify at least one field to update."
           updated_fields := [], dependency_analysis := none }, store)
      else
        ({ success := true
           message := "Successfully updated " ++ s4.1.type ++ " " ++ element_id
           updated_fields := s4.2, dependency_analysis := none },
         save_element store s4.1 now)
    | some deps =>
      let element5 := { s4.1 with dependencies := deps }
      let fields5 := s4.2 ++ ["dependencies"]
      let store1 := cleanup_pass element_id now deps store original_deps
      let p := dependents_pass element_id now store1 deps
      ({ success := true
         message := "Successfully updated " ++ s4.1.type ++ " " ++ element_id
         updated_fields := fields5
         dependency_analysis := some
           { original_dependencies := original_deps
             new_dependencies := deps
             existing_dependencies := p.2.1
             missing_dependencies := p.2.2
             missing_count := p.2.2.length } },
       save_element p.1 element5 now)

structure RemoveResult where
  success : Bool
  message : String
  cleaned_references : List String
  dependencies_removed : List String
  dependents_updated : List String
deriving Repr, DecidableEq

/-- Processing of one other element during `remove_element`: remove `eid`
from its `dependencies` (one list removal, i.e. the first occurrence) and
save, then likewise for its `dependents`, collecting a tag per change. -/
def remove_step (eid now : String) (st : Store) (other : CodeElement) : Store × List String :=
  let q :=
    if eid ∈ other.dependencies then
      let o := { other with dependencies := other.dependencies.erase eid }
      (o, save_element st o now, [other.id ++ " (removed from dependencies)"])
    else (other, st, ([] : List String))
  if eid ∈ q.1.dependents then
    let o := { q.1 with dependents := q.1.dependents.erase eid }
    (save_element q.2.1 o now, q.2.2 ++ [q.1.id ++ " (removed from dependents)"])
  else (q.2.1, q.2.2)

/-- The reference-scrubbing scan of `remove_element`: iterate over the
snapshot of all elements, skipping the removed id itself. -/
def remove_pass (eid now : String) : Store → List CodeElement → Store × List String
  | st, [] => (st, [])
  | st, other :: rest =>
    if other.id = eid then remove_pass eid now st rest
    else
      let s := remove_step eid now st other
      let res := remove_pass eid now s.1 rest
      (res.1, s.2 ++ res.2)

/-- `remove_element`: fails when absent; otherwise scrubs the id from every
other element's lists, deletes the record, and reports the removed element's
prior dependencies and dependents plus the touched elements. -/
def remove_element (store : Store) (element_id now : String) : RemoveResult × Store :=
  match load_element store element_id with
  | none =>
    ({ success := false, message := "Element " ++ element_id ++ " not found"
       cleaned_references := [], dependencies_removed := [], dependents_updated := [] }, store)
  | some element =>
    let p := remove_pass element_id now store store
    let store2 := delete_record p.1 element_id
    ({ success := true
       message := "Successfully removed " ++ element.type ++ " " ++ element_id
       cleaned_references := p.2
       dependencies_removed := element.dependencies
       dependents_updated := element.dependents }, store2)

structure MissingRef where
  referencing_element : String
  element_type : String
  description : String
deriving Repr, DecidableEq

/-- Adding one referencer under a missing id in the insertion-ordered
mapping built by `find_missing_dependencies`. -/
def add_missing_ref (md : List (String × List MissingRef)) (k : String) (r : MissingRef) :
    List (String × List MissingRef) :=
  match md with
  | [] => [(k, [r])]
  | (k1, rs) :: rest =>
    if k1 = k then (k1, rs ++ [r]) :: rest else (k1, rs) :: add_missing_ref rest k r

def lookup_missing : List (String × List MissingRef) → String → Option (List MissingRef)
  | [], _ => none
  | (k1, rs) :: rest, k => if k1 = k then some rs else lookup_missing rest k

def mk_missing_ref (e : CodeElement) : MissingRef :=
  { referencing_element := e.id, element_type := e.type, description := e.description }

/-- The double loop of `find_missing_dependencies`: every dependency id of a
checked element that is not a stored id is recorded with its referencer. -/
def collect_missing (all_ids : List String) (elements : List CodeElement) :
    List (String × List MissingRef) :=
  elements.foldl (fun md element =>
    element.dependencies.foldl (fun md1 dep_id =>
      if dep_id ∈ all_ids then md1 else add_missing_ref md1 dep_id (mk_missing_ref element)) md) []

structure FindMissingResult where
  success : Bool
  message : String
  missing_dependencies : List (String × List MissingRef)
  total_missing : Nat
  checked_elements : Nat
deriving Repr, DecidableEq

/-- `find_missing_dependencies`: check one element (failing when it is
absent) or all elements when the id argument is empty. -/
def find_missing_dependencies (store : Store) (element_id : String) : FindMissingResult :=
  if element_id ≠ "" then
    match load_element store element_id with
    | none =>
      { success := false, message := "Element " ++ element_id ++ " not found"
        missing_dependencies := [], total_missing := 0, checked_elements := 0 }
    | some e =>
      let md := collect_missing (store.map (fun x => x.id)) [e]
      { success := true, message := "", missing_dependencies := md
        total_missing := md.length, checked_elements := 1 }
  else
    let md := collect_missing (store.map (fun x => x.id)) store
    { success := true, message := "", missing_dependencies := md
      total_missing := md.length, checked_elements := store.length }

/-- Round-half-to-even on an exact rational, mirroring Python `round` with
the arithmetic carried out exactly. -/
def roundHalfEven (q : ℚ) : ℤ :=
  if q - ⌊q⌋ < 1 / 2 then ⌊q⌋
  else if 1 / 2 < q - ⌊q⌋ then ⌊q⌋ + 1
  else if ⌊q⌋ % 2 = 0 then ⌊q⌋ else ⌊q⌋ + 1

/-- `round(q, ndigits)` over exact rationals. -/
def pyround (q : ℚ) (ndigits : Nat) : ℚ :=
  (roundHalfEven (q * (10 : ℚ) ^ ndigits) : ℚ) / (10 : ℚ) ^ ndigits

/-- `"  " * depth`. -/
def indent (depth : Nat) : String := String.join (List.replicate depth "  ")

/-- `build_tree_recursive`: depth-first rendering of the dependency tree.
The recursion of the source is bounded by the `depth > max_depth` guard and
the per-branch `visited` path; the embedding carries a structural `fuel`
argument, shown immaterial (for any fuel at least `max_depth + 1 - depth`)
in the termination theorem below, so the wrapper's `max_depth + 1` budget
reproduces the source exactly. -/
def build_tree_recursive (all_elements : Store) (max_depth : Nat) :
    Nat → String → Nat → List String → List String
  | 0, _, _, _ => []
  | fuel + 1, element_id, depth, visited =>
    if depth > max_depth ∨ element_id ∈ visited then []
    else
      match load_element all_elements element_id with
      | none => [indent depth ++ "├── " ++ element_id ++ " [MISSING]"]
      | some element =>
        let marker := if depth > 0 then "├── " else ""
        (indent depth ++ marker ++ element.id ++ " [" ++ element.type ++ "] - "
            ++ element.description)
          :: (element.dependencies.map (fun dep_id =>
                build_tree_recursive all_elements max_depth fuel dep_id (depth + 1)
                  (element_id :: visited))).flatten

/-- Per-type histogram update (`dict.get(t, 0) + 1` with insertion order). -/
def bump_type : List (String × Nat) → String → List (String × Nat)
  | [], t => [(t, 1)]
  | (t1, n) :: rest, t =>
    if t1 = t then (t1, n + 1) :: rest else (t1, n) :: bump_type rest t

/-- Accumulator of the statistics loop in `get_knowledge_tree_view`. -/
structure ViewAcc where
  element_types : List (String × Nat)
  total_deps : Nat
  max_deps : Nat
  orphans : Nat
deriving Repr, DecidableEq

def view_step (acc : ViewAcc) (e : CodeElement) : ViewAcc :=
  { element_types := bump_type acc.element_types e.type
    total_deps := acc.total_deps + e.dependencies.length
    max_deps := max acc.max_deps e.dependencies.length
    orphans := acc.orphans + (if e.dependencies.isEmpty ∧ e.dependents.isEmpty then 1 else 0) }

structure ViewStats where
  total_elements : Nat
  element_types : List (String × Nat)
  avg_dependencies : ℚ
  max_dependencies : Nat
  orphaned_elements : Nat
deriving Repr, DecidableEq

structure TreeViewResult where
  success : Bool
  message : String
  tree : String
  statistics : Option ViewStats
deriving Repr, DecidableEq

/-- `get_knowledge_tree_view`: empty store short-circuits to a successful
"Knowledge tree is empty" reply (its statistics dict carries only the zero
total, encoded here as `none`); a given root that is absent fails; otherwise
the tree is rendered from the root, or from every element without
dependents (falling back to all elements), with aggregate statistics. -/
def get_knowledge_tree_view (store : Store) (root_element_id : String) (max_depth : Nat) :
    TreeViewResult :=
  if store.isEmpty then
    { success := true, message := "Knowledge tree is empty", tree := "", statistics := none }
  else
    let build := fun (root : String) =>
      build_tree_recursive store max_depth (max_depth + 1) root 0 []
    let branch : Option (List String) :=
      if root_element_id ≠ "" then
        match load_element store root_element_id with
        | none => none
        | some _ => some (build root_element_id)
      else
        let top_level0 := store.filter (fun e => e.dependents.isEmpty)
        let top_level := if top_level0.isEmpty then store else top_level0
        some (top_level.foldl (fun acc e => acc ++ build e.id ++ [""]) [])
    match branch with
    | none =>
      { success := false
        message := "Root element " ++ root_element_id ++ " not found"
        tree := "", statistics := none }
    | some tree_lines =>
      let acc := store.foldl view_step { element_types := [], total_deps := 0, max_deps := 0, orphans := 0 }
      let avg := if store.length > 0 then pyround ((acc.total_deps : ℚ) / (store.length : ℚ)) 2 else 0
      { success := true, message := ""
        tree := String.intercalate "\n" tree_lines
        statistics := some
          { total_elements := store.length
            element_types := acc.element_types
            avg_dependencies := avg
            max_dependencies := acc.max_deps
            orphaned_elements := acc.orphans } }

/-- Membership-guarded append used for the `missing_deps` set of
`get_knowledge_tree_stats` (a Python `set`, embedded in insertion order). -/
def add_missing_id (s : List String) (d : String) : List String :=
  if d ∈ s then s else s ++ [d]

/-- Accumulator of the per-element loop of `get_knowledge_tree_stats`. -/
structure StatsAcc where
  element_types : List (String × Nat)
  total_deps : Nat
  max_deps : Nat
  no_deps : Nat
  no_dependents : Nat
  orphans : Nat
  missing : List String
deriving Repr, DecidableEq

def stats_step (all_ids : List String) (acc : StatsAcc) (e : CodeElement) : StatsAcc :=
  let dep_count := e.dependencies.length
  { element_types := bump_type acc.element_types e.type
    total_deps := acc.total_deps + dep_count
    max_deps := max acc.max_deps dep_count
    no_deps := acc.no_deps + (if dep_count = 0 then 1 else 0)
    no_dependents := acc.no_dependents + (if e.dependents.length = 0 then 1 else 0)
    orphans := acc.orphans + (if dep_count = 0 ∧ e.dependents.length = 0 then 1 else 0)
    missing := e.dependencies.foldl
      (fun s d => if d ∈ all_ids then s else add_missing_id s d) acc.missing }

structure DependencyStats where
  total_dependencies : Nat
  avg_dependencies_per_element : ℚ
  max_dependencies : Nat
  elements_with_no_dependencies : Nat
  elements_with_no_dependents : Nat
deriving Repr, DecidableEq

structure HealthMetrics where
  orphaned_elements : Nat
  missing_dependencies : Nat
  circular_dependencies : Nat
  overall_health_score : ℚ
deriving Repr, DecidableEq

structure StatsRecord where
  total_elements : Nat
  element_types : List (String × Nat)
  dependency_stats : DependencyStats
  health_metrics : HealthMetrics
  missing_dependency_list : List String
deriving Repr, DecidableEq

structure StatsResult where
  success : Bool
  message : String
  stats : Option StatsRecord
deriving Repr, DecidableEq

/-- `get_knowledge_tree_stats`: the empty store reports a trivial reply (its
reduced stats dict is encoded as `none`); otherwise one pass over the
elements accumulates the counters and the health score is
`max 0 (100 - orphans/n * 20 - missing/max(total,1) * 30)` rounded to one
decimal, the average to two. -/
def get_knowledge_tree_stats (store : Store) : StatsResult :=
  if store.isEmpty then
    { success := true, message := "Knowledge tree is empty", stats := none }
  else
    let all_ids := store.map (fun e => e.id)
    let acc := store.foldl (stats_step all_ids)
      { element_types := [], total_deps := 0, max_deps := 0, no_deps := 0
        no_dependents := 0, orphans := 0, missing := [] }
    let n := store.length
    let avg := if n > 0 then pyround ((acc.total_deps : ℚ) / (n : ℚ)) 2 else 0
    let orphan_penalty : ℚ := ((acc.orphans : ℚ) / (n : ℚ)) * 20
    let missing_penalty : ℚ := ((acc.missing.length : ℚ) / ((max acc.total_deps 1 : ℕ) : ℚ)) * 30
    let health : ℚ := max 0 (100 - orphan_penalty - missing_penalty)
    { success := true, message := ""
      stats := some
        { total_elements := n
          element_types := acc.element_types
          dependency_stats :=
            { total_dependencies := acc.total_deps
              avg_dependencies_per_element := avg
              max_dependencies := acc.max_deps
              elements_with_no_dependencies := acc.no_deps
              elements_with_no_dependents := acc.no_dependents }
          health_metrics :=
            { orphaned_elements := acc.orphans
              missing_dependencies := acc.missing.length
              circular_dependencies := 0
              overall_health_score := pyround health 1 }
          missing_dependency_list := acc.missing } }

/-! ### Specification-side definitions

These follow the wording of the specification (not the code) and are used
to state refinement claims against the embedded operations. -/

/-- Spec wording for the `add` mode of `editDependencies`: keep the first
occurrence of every id, in order. -/
def dedupFirst : List String → List String
  | [] => []
  | x :: xs => x :: dedupFirst (xs.filter (fun a => a ≠ x))
termination_by l => l.length
decreasing_by
  simp only [List.length_cons]
  exact Nat.lt_succ_of_le (List.length_filter_le _ _)

/-- Spec: total number of dependency edges in the store. -/
def specTotalDeps (store : Store) : Nat :=
  (store.map (fun e => e.dependencies.length)).sum

/-- Spec: an orphan has zero dependencies and zero dependents. -/
def specOrphanCount (store : Store) : Nat :=
  (store.filter (fun e => e.dependencies.isEmpty && e.dependents.isEmpty)).length

/-- Spec: a missing id is a referenced dependency with no stored record;
count distinct such ids. -/
def specMissingCount (store : Store) : Nat :=
  (((store.map (fun e => e.dependencies)).flatten.filter
    (fun d => !(store.any (fun e => e.id == d)))).toFinset).card

/-! ### Concrete stores used by witnesses and counterexamples -/

/-- A store with one element `a` that has a dangling dependency on `b`,
built by a single successful add on the empty store. -/
def danglingStore : Store :=
  (add_code_element [] "a" "function" "code a" "da" ["b"] "" "" "t1").2

/-- `danglingStore` after `b` is added: the historical reference from `a`
is not repaired. -/
def repairStore : Store :=
  (add_code_element danglingStore "b" "function" "code b" "db" [] "" "" "t2").2

/-- A store whose single element `e` depends on itself (reciprocated by the
add pass re-reading the just-saved record). -/
def selfStore : Store :=
  (add_code_element [] "e" "function" "code e" "de" ["e"] "" "" "t1").2

/-- A store where `a` lists the dangling id `x` twice. -/
def dupDepStore : Store :=
  (add_code_element [] "a" "function" "code a" "da" ["x", "x"] "" "" "t1").2

/-- `b` exists and `a` lists it twice: `b.dependents = [a]`. -/
def dupPairStore : Store :=
  (add_code_element
    (add_code_element [] "b" "function" "code b" "db" [] "" "" "t1").2
    "a" "function" "code a" "da" ["b", "b"] "" "" "t2").2

/-- The two-element cycle `a → b → a` of the spec's termination test. -/
def cycleStore : Store :=
  [{ id := "a", type := "function", code := "", description := "da"
     dependencies := ["b"], dependents := ["b"], source_file := none, line_range := none
     created_at := "t", updated_at := "t" },
   { id := "b", type := "function", code := "", description := "db"
     dependencies := ["a"], dependents := ["a"], source_file := none, line_range := none
     created_at := "t", updated_at := "t" }]

/-- A diamond `r → x → a`, `r → y → a`: the shared leaf `a` must render
under both sibling branches. -/
def diamondStore : Store :=
  [{ id := "r", type := "function", code := "", description := "dr"
     dependencies := ["x", "y"], dependents := [], source_file := none, line_range := none
     created_at := "t", updated_at := "t" },
   { id := "x", type := "function", code := "", description := "dx"
     dependencies := ["a"], dependents := ["r"], source_file := none, line_range := none
     created_at := "t", updated_at := "t" },
   { id := "y", type := "function", code := "", description := "dy"
     dependencies := ["a"], dependents := ["r"], source_file := none, line_range := none
     created_at := "t", updated_at := "t" },
   { id := "a", type := "function", code := "", description := "da"
     dependencies := [], dependents := ["x", "y"], source_file := none, line_range := none
     created_at := "t", updated_at := "t" }]

/-- Two elements, one dangling reference: `a` depends on `b` and on the
never-added `g`. -/
def statsStore : Store :=
  (add_code_element
    (add_code_element [] "b" "function" "code b" "db" [] "" "" "t1").2
    "a" "function" "code a" "da" ["b", "g"] "" "" "t2").2

/-! ### Store lemmas -/

@[simp] theorem stamp_id (e : CodeElement) (now : String) : (stamp e now).id = e.id := by
  unfold stamp; dsimp only; split <;> rfl

@[simp] theorem stamp_type (e : CodeElement) (now : String) : (stamp e now).type = e.type := by
  unfold stamp; dsimp only; split <;> rfl

@[simp] theorem stamp_code (e : CodeElement) (now : String) : (stamp e now).code = e.code := by
  unfold stamp; dsimp only; split <;> rfl

@[simp] theorem stamp_description (e : CodeElement) (now : String) :
    (stamp e now).description = e.description := by
  unfold stamp; dsimp only; split <;> rfl

@[simp] theorem stamp_dependencies (e : CodeElement) (now : String) :
    (stamp e now).dependencies = e.dependencies := by
  unfold stamp; dsimp only; split <;> rfl

@[simp] theorem stamp_dependents (e : CodeElement) (now : String) :
    (stamp e now).dependents = e.dependents := by
  unfold stamp; dsimp only; split <;> rfl

@[simp] theorem stamp_source_file (e : CodeElement) (now : String) :
    (stamp e now).source_file = e.source_file := by
  unfold stamp; dsimp only; split <;> rfl

@[simp] theorem stamp_line_range (e : CodeElement) (now : String) :
    (stamp e now).line_range = e.line_range := by
  unfold stamp; dsimp only; split <;> rfl

theorem load_element_id {st : Store} {i : String} {e : CodeElement}
    (h : load_element st i = some e) : e.id = i := by
  induction st with
  | nil => simp [load_element] at h
  | cons x rest ih =>
    by_cases hx : x.id = i
    · simp [load_element, hx] at h; subst h; exact hx
    · simp [load_element, hx] at h; exact ih h

theorem load_save_list_self (st : Store) (e : CodeElement) :
    load_element (save_list st e) e.id = some e := by
  induction st with
  | nil => simp [save_list, load_element]
  | cons x rest ih =>
    by_cases hx : x.id = e.id
    · simp [save_list, hx, load_element]
    · simp [save_list, hx, load_element, ih]

theorem load_save_list_other (st : Store) (e : CodeElement) (i : String) (h : i ≠ e.id) :
    load_element (save_list st e) i = load_element st i := by
  induction st with
  | nil => simp [save_list, load_element, Ne.symm h]
  | cons x rest ih =>
    by_cases hx : x.id = e.id
    · have hei : ¬e.id = i := Ne.symm h
      have hxi : ¬x.id = i := hx ▸ hei
      simp [save_list, hx, load_element, hei, hxi]
    · by_cases hxi : x.id = i
      · simp [save_list, hx, load_element, hxi, h]
      · simp [save_list, hx, load_element, hxi, ih]

theorem load_save_self (st : Store) (e : CodeElement) (now : String) :
    load_element (save_element st e now) e.id = some (stamp e now) := by
  unfold save_element
  rw [show e.id = (stamp e now).id from (stamp_id e now).symm]
  exact load_save_list_self st (stamp e now)

theorem load_save_other (st : Store) (e : CodeElement) (now i : String) (h : i ≠ e.id) :
    load_element (save_element st e now) i = load_element st i := by
  unfold save_element
  exact load_save_list_other st (stamp e now) i (by rwa [stamp_id])

theorem load_save_isSome (st : Store) (e : CodeElement) (now : String)
    (he : (load_element st e.id).isSome = true) (i : String) :
    (load_element (save_element st e now) i).isSome = (load_element st i).isSome := by
  by_cases hi : i = e.id
  · subst hi; rw [load_save_self, he]; rfl
  · rw [load_save_other st e now i hi]

theorem load_element_isSome_iff (st : Store) (k : String) :
    (load_element st k).isSome = true ↔ k ∈ st.map (fun e => e.id) := by
  induction st with
  | nil => simp [load_element]
  | cons x rest ih =>
    by_cases hx : x.id = k
    · simp [load_element, hx]
    · simp only [load_element, if_neg hx, List.map_cons, List.mem_cons]
      rw [ih]
      constructor
      · exact fun h => Or.inr h
      · rintro (h | h)
        · exact absurd h.symm hx
        · exact h

/-! ### Dependents-pass lemmas -/

/-- Any record survives the dependents pass with its `dependencies`
unchanged; its `dependents` gain `eid` exactly when its id is listed and it
did not already record `eid`. -/
theorem dependents_pass_load (eid now : String) (deps : List String) (st : Store)
    (k : String) (r : CodeElement) (h : load_element st k = some r) :
    ∃ r2, load_element (dependents_pass eid now st deps).1 k = some r2 ∧
      r2.dependencies = r.dependencies ∧ r2.id = r.id ∧ r2.type = r.type ∧
      r2.description = r.description ∧
      r2.dependents = (if k ∈ deps ∧ eid ∉ r.dependents then r.dependents ++ [eid]
        else r.dependents) := by
  induction deps generalizing st r with
  | nil => exact ⟨r, by simpa [dependents_pass] using h⟩
  | cons d rest ih =>
    by_cases hk : d = k
    · subst hk
      rw [dependents_pass, h]
      by_cases hmem : eid ∈ r.dependents
      · simp only [if_pos hmem]
        obtain ⟨r2, h2, hdeps, hid, hty, hdesc, hdep⟩ := ih st r h
        refine ⟨r2, h2, hdeps, hid, hty, hdesc, ?_⟩
        rw [hdep]
        simp [hmem]
      · simp only [if_neg hmem]
        have hid0 : r.id = d := load_element_id h
        have hload : load_element
            (save_element st { r with dependents := r.dependents ++ [eid] } now) d =
            some (stamp { r with dependents := r.dependents ++ [eid] } now) := by
          rw [← hid0]
          exact load_save_self st { r with dependents := r.dependents ++ [eid] } now
        obtain ⟨r2, h2, hdeps, hid, hty, hdesc, hdep⟩ := ih _ _ hload
        refine ⟨r2, h2, by simpa using hdeps, by simpa [hid0] using hid,
          by simpa using hty, by simpa using hdesc, ?_⟩
        rw [hdep]
        have hin : eid ∈ (stamp { r with dependents := r.dependents ++ [eid] } now).dependents := by
          simp
        simp [hin, hmem]
    · have hcong : ∀ b : List String,
          (if k ∈ rest ∧ eid ∉ b then b ++ [eid] else b) =
          (if k ∈ (d :: rest) ∧ eid ∉ b then b ++ [eid] else b) := by
        intro b
        apply (if_congr ?_ rfl rfl).symm
        simp only [List.mem_cons]
        constructor
        · rintro ⟨h1 | h1, h2⟩
          · exact absurd h1.symm hk
          · exact ⟨h1, h2⟩
        · rintro ⟨h1, h2⟩
          exact ⟨Or.inr h1, h2⟩
      rw [dependents_pass]
      cases hd : load_element st d with
      | none =>
        obtain ⟨r2, h2, hdeps, hid, hty, hdesc, hdep⟩ := ih st r h
        exact ⟨r2, h2, hdeps, hid, hty, hdesc, by rw [hdep, hcong]⟩
      | some dep_el =>
        dsimp only
        by_cases hmem : eid ∈ dep_el.dependents
        · simp only [if_pos hmem]
          obtain ⟨r2, h2, hdeps, hid, hty, hdesc, hdep⟩ := ih st r h
          exact ⟨r2, h2, hdeps, hid, hty, hdesc, by rw [hdep, hcong]⟩
        · simp only [if_neg hmem]
          have hdid : dep_el.id = d := load_element_id hd
          have hload : load_element
              (save_element st { dep_el with dependents := dep_el.dependents ++ [eid] } now) k =
              some r := by
            rw [load_save_other _ _ _ _ (by
              show k ≠ ({ dep_el with dependents := dep_el.dependents ++ [eid] } : CodeElement).id
              show k ≠ dep_el.id
              rw [hdid]
              exact fun h2 => hk h2.symm)]
            exact h
          obtain ⟨r2, h2, hdeps, hid, hty, hdesc, hdep⟩ := ih _ r hload
          exact ⟨r2, h2, hdeps, hid, hty, hdesc, by rw [hdep, hcong]⟩

/-- The dependents pass never creates or deletes records. -/
theorem dependents_pass_isSome (eid now : String) (deps : List String) (st : Store)
    (i : String) :
    (load_element (dependents_pass eid now st deps).1 i).isSome =
      (load_element st i).isSome := by
  induction deps generalizing st with
  | nil => simp [dependents_pass]
  | cons d rest ih =>
    rw [dependents_pass]
    cases hd : load_element st d with
    | none => exact ih st
    | some dep_el =>
      dsimp only
      by_cases hmem : eid ∈ dep_el.dependents
      · simp only [if_pos hmem]; exact ih st
      · simp only [if_neg hmem]
        rw [ih]
        apply load_save_isSome
        show (load_element st dep_el.id).isSome = true
        rw [load_element_id hd, hd]
        rfl

/-- Records whose id is not among the processed dependencies are untouched. -/
theorem dependents_pass_load_other (eid now : String) (deps : List String) (st : Store)
    (i : String) (h : i ∉ deps) :
    load_element (dependents_pass eid now st deps).1 i = load_element st i := by
  induction deps generalizing st with
  | nil => simp [dependents_pass]
  | cons d rest ih =>
    have hi : i ∉ rest := fun h2 => h (List.mem_cons_of_mem d h2)
    have hdi : i ≠ d := fun h2 => h (h2 ▸ List.mem_cons_self d rest)
    rw [dependents_pass]
    cases hd : load_element st d with
    | none => exact ih st hi
    | some dep_el =>
      dsimp only
      by_cases hmem : eid ∈ dep_el.dependents
      · simp only [if_pos hmem]; exact ih st hi
      · simp only [if_neg hmem]
        rw [ih _ hi]
        apply load_save_other
        have hdid : dep_el.id = d := load_element_id hd
        show i ≠ ({ dep_el with dependents := dep_el.dependents ++ [eid] }).id
        simpa [hdid] using hdi

/-- The existing/missing partition returned by the dependents pass is the
partition of the dependency list by existence in the starting store. -/
theorem dependents_pass_partition (eid now : String) (deps : List String) (st : Store) :
    (dependents_pass eid now st deps).2.1 =
        deps.filter (fun d => (load_element st d).isSome) ∧
      (dependents_pass eid now st deps).2.2 =
        deps.filter (fun d => !(load_element st d).isSome) := by
  induction deps generalizing st with
  | nil => simp [dependents_pass]
  | cons d rest ih =>
    rw [dependents_pass]
    cases hd : load_element st d with
    | none =>
      obtain ⟨h1, h2⟩ := ih st
      constructor
      · simp [List.filter, hd, h1]
      · simp [List.filter, hd, h2]
    | some dep_el =>
      dsimp only
      have hdid : dep_el.id = d := load_element_id hd
      have hsome : ∀ st2 : Store, (∀ j, (load_element st2 j).isSome = (load_element st j).isSome) →
          (dependents_pass eid now st2 rest).2.1 = rest.filter (fun x => (load_element st x).isSome) ∧
          (dependents_pass eid now st2 rest).2.2 = rest.filter (fun x => !(load_element st x).isSome) := by
        intro st2 hpres
        obtain ⟨h1, h2⟩ := ih st2
        constructor
        · rw [h1]; exact List.filter_congr (fun x _ => by rw [hpres])
        · rw [h2]; exact List.filter_congr (fun x _ => by rw [hpres])
      by_cases hmem : eid ∈ dep_el.dependents
      · simp only [if_pos hmem]
        obtain ⟨h1, h2⟩ := hsome st (fun j => rfl)
        constructor
        · simp [List.filter, hd, h1]
        · simp [List.filter, hd, h2]
      · simp only [if_neg hmem]
        have hpres : ∀ j, (load_element
            (save_element st { dep_el with dependents := dep_el.dependents ++ [eid] } now) j).isSome
            = (load_element st j).isSome := by
          intro j
          apply load_save_isSome
          show (load_element st dep_el.id).isSome = true
          rw [hdid, hd]
          rfl
        obtain ⟨h1, h2⟩ := hsome _ hpres
        constructor
        · simp [List.filter, hd, h1]
        · simp [List.filter, hd, h2]

/-! ### Characterization of `add_code_element` on a fresh id -/

@[simp] theorem new_element_id (i t c d : String) (deps : List String) (sf lr : String) :
    (new_element i t c d deps sf lr).id = i := rfl

@[simp] theorem new_element_type (i t c d : String) (deps : List String) (sf lr : String) :
    (new_element i t c d deps sf lr).type = t := rfl

@[simp] theorem new_element_description (i t c d : String) (deps : List String) (sf lr : String) :
    (new_element i t c d deps sf lr).description = d := rfl

@[simp] theorem new_element_dependencies (i t c d : String) (deps : List String) (sf lr : String) :
    (new_element i t c d deps sf lr).dependencies = deps := rfl

@[simp] theorem new_element_dependents (i t c d : String) (deps : List String) (sf lr : String) :
    (new_element i t c d deps sf lr).dependents = [] := rfl

/-- Adding a fresh element succeeds and stores it with exactly the declared
dependencies; its `dependents` list starts empty, gaining only the element
itself when it lists itself (the pass re-reads the just-saved record). -/
theorem add_new_record (store : Store) (X ty co de : String) (deps : List String)
    (sf lr now : String) (h : load_element store X = none) :
    (add_code_element store X ty co de deps sf lr now).1.success = true ∧
    ∃ r, load_element (add_code_element store X ty co de deps sf lr now).2 X = some r ∧
      r.id = X ∧ r.type = ty ∧ r.description = de ∧ r.dependencies = deps ∧
      r.dependents = (if X ∈ deps then [X] else []) := by
  refine ⟨by simp [add_code_element, h], ?_⟩
  have heq : (add_code_element store X ty co de deps sf lr now).2 =
      (dependents_pass X now
        (save_element store (new_element X ty co de deps sf lr) now) deps).1 := by
    simp [add_code_element, h]
  rw [heq]
  have h1 : load_element (save_element store (new_element X ty co de deps sf lr) now) X =
      some (stamp (new_element X ty co de deps sf lr) now) :=
    load_save_self store _ now
  obtain ⟨r2, hr2, hdeps, hid, hty, hdesc, hdep⟩ := dependents_pass_load X now deps _ X _ h1
  refine ⟨r2, hr2, by simpa using hid, by simpa using hty, by simpa using hdesc,
    by simpa using hdeps, ?_⟩
  rw [hdep]
  by_cases hX : X ∈ deps <;> simp [hX]

/-! ### Missing-reference mapping lemmas -/

theorem lookup_add_missing_ref_preserve (md : List (String × List MissingRef))
    (k d : String) (r ref : MissingRef)
    (h : ∃ rs, lookup_missing md d = some rs ∧ ref ∈ rs) :
    ∃ rs, lookup_missing (add_missing_ref md k r) d = some rs ∧ ref ∈ rs := by
  induction md with
  | nil => simp [lookup_missing] at h
  | cons p rest ih =>
    obtain ⟨k1, rs1⟩ := p
    by_cases hkk : k1 = k
    · rw [add_missing_ref, if_pos hkk]
      by_cases hk1 : k1 = d
      · simp only [lookup_missing, if_pos hk1] at h
        obtain ⟨rs, hrs, hmem⟩ := h
        have hrs2 := Option.some.inj hrs
        subst hrs2
        exact ⟨rs1 ++ [r], by rw [lookup_missing, if_pos hk1],
          List.mem_append_left _ hmem⟩
      · simp only [lookup_missing, if_neg hk1] at h
        obtain ⟨rs, hrs, hmem⟩ := h
        exact ⟨rs, by rw [lookup_missing, if_neg hk1]; exact hrs, hmem⟩
    · rw [add_missing_ref, if_neg hkk]
      by_cases hk1 : k1 = d
      · simp only [lookup_missing, if_pos hk1] at h
        obtain ⟨rs, hrs, hmem⟩ := h
        have hrs2 := Option.some.inj hrs
        subst hrs2
        exact ⟨rs1, by rw [lookup_missing, if_pos hk1], hmem⟩
      · simp only [lookup_missing, if_neg hk1] at h
        obtain ⟨rs, hrs, hmem⟩ := ih h
        exact ⟨rs, by rw [lookup_missing, if_neg hk1]; exact hrs, hmem⟩

theorem lookup_add_missing_ref_self (md : List (String × List MissingRef))
    (d : String) (ref : MissingRef) :
    ∃ rs, lookup_missing (add_missing_ref md d ref) d = some rs ∧ ref ∈ rs := by
  induction md with
  | nil => exact ⟨[ref], by simp [add_missing_ref, lookup_missing], by simp⟩
  | cons p rest ih =>
    obtain ⟨k1, rs1⟩ := p
    by_cases hk1 : k1 = d
    · exact ⟨rs1 ++ [ref], by simp [add_missing_ref, hk1, lookup_missing], by simp⟩
    · obtain ⟨rs, hrs, hmem⟩ := ih
      exact ⟨rs, by simp [add_missing_ref, hk1, lookup_missing, hrs], hmem⟩

/-- In the fold that records dangling dependencies of one element, every
dependency outside the stored-id list ends up recorded with the element as
referencer. -/
theorem fold_missing_reports (ids : List String) (e : CodeElement) (d : String) :
    ∀ (deps : List String) (md : List (String × List MissingRef)),
      (d ∈ deps ∧ d ∉ ids) ∨ (∃ rs, lookup_missing md d = some rs ∧ mk_missing_ref e ∈ rs) →
      ∃ rs, lookup_missing
          (deps.foldl (fun md1 dep_id =>
            if dep_id ∈ ids then md1 else add_missing_ref md1 dep_id (mk_missing_ref e)) md) d
        = some rs ∧ mk_missing_ref e ∈ rs := by
  intro deps
  induction deps with
  | nil =>
    intro md h
    rcases h with ⟨h1, _⟩ | h2
    · simp at h1
    · simpa using h2
  | cons x rest ih =>
    intro md h
    rw [List.foldl_cons]
    by_cases hx : x ∈ ids
    · rw [if_pos hx]
      apply ih
      rcases h with ⟨h1, h2⟩ | h2
      · rcases List.mem_cons.mp h1 with h3 | h3
        · exact absurd (h3 ▸ hx) h2
        · exact Or.inl ⟨h3, h2⟩
      · exact Or.inr h2
    · rw [if_neg hx]
      apply ih
      rcases h with ⟨h1, h2⟩ | h2
      · rcases List.mem_cons.mp h1 with h3 | h3
        · subst h3
          exact Or.inr (lookup_add_missing_ref_self md d (mk_missing_ref e))
        · exact Or.inl ⟨h3, h2⟩
      · exact Or.inr (lookup_add_missing_ref_preserve md x d (mk_missing_ref e) _ h2)

/-! ### C1, C2, C8, C10 -/

/-- C1 (counterexample): starting from the empty store, add `a` with the
dangling dependency `b`, then successfully add `b`.  The final store has
`b ∈ a.dependencies` with `b` existing, yet `a ∉ b.dependents` — the
claimed reciprocity (and in particular the claimed repair of pre-existing
references by `add_code_element`) fails. -/
theorem reciprocity_counterexample :
    (add_code_element danglingStore "b" "function" "code b" "db" [] "" "" "t2").1.success = true ∧
    (∃ ra, load_element repairStore "a" = some ra ∧ "b" ∈ ra.dependencies) ∧
    (∃ rb, load_element repairStore "b" = some rb ∧ "a" ∉ rb.dependents) := by
  refine ⟨by decide, ?_, ?_⟩
  · exact ⟨(load_element repairStore "a").get (by decide), by decide, by decide⟩
  · exact ⟨(load_element repairStore "b").get (by decide), by decide, by decide⟩

/-- C1 (amended): `add_code_element` on a fresh id `X` does not repair
pre-existing references to `X`: the stored record for `X` ends with
`dependents` equal to `[X]` when `X` lists itself and `[]` otherwise, so no
pre-existing referencer of `X` ever appears in `X.dependents` and the
two-sided reciprocity invariant fails as soon as a dangling reference is
later satisfied by an add. -/
theorem reciprocity_after_add_amended (store : Store) (X ty co de : String)
    (deps : List String) (sf lr now : String) (h : load_element store X = none) :
    (add_code_element store X ty co de deps sf lr now).1.success = true ∧
    ∃ r, load_element (add_code_element store X ty co de deps sf lr now).2 X = some r ∧
      r.dependencies = deps ∧ r.dependents = (if X ∈ deps then [X] else []) := by
  obtain ⟨hs, r, hr, _, _, _, hdeps, hdep⟩ := add_new_record store X ty co de deps sf lr now h
  exact ⟨hs, r, hr, hdeps, hdep⟩

/-- C1 (witness): the amended statement applied to the concrete dangling
store. -/
theorem reciprocity_after_add_amended_witness :
    (add_code_element danglingStore "b" "function" "code b" "db" [] "" "" "t2").1.success = true ∧
    ∃ r, load_element (add_code_element danglingStore "b" "function" "code b" "db" [] "" "" "t2").2 "b"
        = some r ∧ r.dependencies = [] ∧ r.dependents = (if "b" ∈ ([] : List String) then ["b"] else []) :=
  reciprocity_after_add_amended danglingStore "b" "function" "code b" "db" [] "" "" "t2" (by decide)

/-- C2: adding an id that is already present fails and returns the store
untouched — every record, including the first one for that id with all its
fields and timestamps, is exactly as before the call. -/
theorem add_already_exists (store : Store) (element_id ty co de : String)
    (deps : List String) (sf lr now : String)
    (h : (load_element store element_id).isSome = true) :
    (add_code_element store element_id ty co de deps sf lr now).1.success = false ∧
    (add_code_element store element_id ty co de deps sf lr now).2 = store := by
  obtain ⟨e, he⟩ := Option.isSome_iff_exists.mp h
  constructor <;> simp [add_code_element, he]

/-- C2 (witness). -/
theorem add_already_exists_witness :
    (add_code_element danglingStore "a" "module" "x" "y" ["z"] "" "" "t9").1.success = false ∧
    (add_code_element danglingStore "a" "module" "x" "y" ["z"] "" "" "t9").2 = danglingStore :=
  add_already_exists danglingStore "a" "module" "x" "y" ["z"] "" "" "t9" (by decide)

/-- C10: adding a fresh element that lists itself among its dependencies
succeeds and leaves a reciprocated self-loop: the stored record contains its
own id in both `dependencies` and `dependents`, because the dependents pass
re-reads the just-saved record, finds it existing, and appends the id. -/
theorem add_self_dependency (store : Store) (X ty co de : String) (deps : List String)
    (sf lr now : String) (h : load_element store X = none) (hX : X ∈ deps) :
    (add_code_element store X ty co de deps sf lr now).1.success = true ∧
    ∃ r, load_element (add_code_element store X ty co de deps sf lr now).2 X = some r ∧
      X ∈ r.dependencies ∧ X ∈ r.dependents := by
  obtain ⟨hs, r, hr, _, _, _, hdeps, hdep⟩ := add_new_record store X ty co de deps sf lr now h
  exact ⟨hs, r, hr, hdeps ▸ hX, by rw [hdep, if_pos hX]; exact List.mem_singleton.mpr rfl⟩

/-- C10 (witness): the self-dependent add that builds `selfStore`. -/
theorem add_self_dependency_witness :
    (add_code_element [] "e" "function" "code e" "de" ["e"] "" "" "t1").1.success = true ∧
    ∃ r, load_element (add_code_element [] "e" "function" "code e" "de" ["e"] "" "" "t1").2 "e"
        = some r ∧ "e" ∈ r.dependencies ∧ "e" ∈ r.dependents :=
  add_self_dependency [] "e" "function" "code e" "de" ["e"] "" "" "t1" (by decide) (by decide)

/-- C8 (counterexample): when the fresh element lists itself, it is a
dependency with no stored record at call time, yet the element is NOT
persisted with empty dependents — the claim as stated fails on this input. -/
theorem add_dangling_counterexample :
    (add_code_element [] "e" "function" "code e" "de" ["e"] "" "" "t1").1.success = true ∧
    ∃ r, load_element selfStore "e" = some r ∧ r.dependents ≠ [] := by
  refine ⟨by decide, (load_element selfStore "e").get (by decide), by decide, by decide⟩

/-- C8 (amended): for a fresh, non-empty id that does not list itself, the
add succeeds even with dangling dependencies: the record keeps the full
dependency list with empty dependents, the result partitions the
dependencies by existence, and the scoped missing-dependency query reports
every dangling id with this element as referencer. -/
theorem add_dangling_amended (store : Store) (X ty co de : String) (deps : List String)
    (sf lr now : String) (h : load_element store X = none) (hX : X ∉ deps) (hne : X ≠ "") :
    (add_code_element store X ty co de deps sf lr now).1.success = true ∧
    (∃ r, load_element (add_code_element store X ty co de deps sf lr now).2 X = some r ∧
      r.dependencies = deps ∧ r.dependents = []) ∧
    (add_code_element store X ty co de deps sf lr now).1.dependency_analysis = some
      { total_dependencies := deps.length
        existing_dependencies := deps.filter (fun d => (load_element store d).isSome)
        missing_dependencies := deps.filter (fun d => !(load_element store d).isSome)
        missing_count := (deps.filter (fun d => !(load_element store d).isSome)).length } ∧
    ((find_missing_dependencies (add_code_element store X ty co de deps sf lr now).2 X).success
        = true ∧
      ∀ d ∈ deps, load_element store d = none →
        ∃ rs, lookup_missing
            (find_missing_dependencies
              (add_code_element store X ty co de deps sf lr now).2 X).missing_dependencies d
          = some rs ∧
          ({ referencing_element := X, element_type := ty, description := de } : MissingRef) ∈ rs) := by
  obtain ⟨hs, r, hr, hid, hty, hdesc, hdeps, hdep⟩ := add_new_record store X ty co de deps sf lr now h
  have hdep0 : r.dependents = [] := by rw [hdep, if_neg hX]
  have hother : ∀ d ∈ deps, d ≠ X := fun d hd h2 => hX (h2 ▸ hd)
  have heq : (add_code_element store X ty co de deps sf lr now).2 =
      (dependents_pass X now
        (save_element store (new_element X ty co de deps sf lr) now) deps).1 := by
    simp [add_code_element, h]
  have hcong : ∀ d ∈ deps,
      (load_element (save_element store (new_element X ty co de deps sf lr) now) d).isSome =
        (load_element store d).isSome := by
    intro d hd
    rw [load_save_other _ _ _ _ (hother d hd)]
  have hpres : ∀ d ∈ deps,
      (load_element (add_code_element store X ty co de deps sf lr now).2 d).isSome =
        (load_element store d).isSome := by
    intro d hd
    rw [heq, dependents_pass_isSome]
    exact hcong d hd
  refine ⟨hs, ⟨r, hr, hdeps, hdep0⟩, ?_, ?_, ?_⟩
  · have heq1 : (add_code_element store X ty co de deps sf lr now).1.dependency_analysis =
        some
          { total_dependencies := deps.length
            existing_dependencies :=
              (dependents_pass X now
                (save_element store (new_element X ty co de deps sf lr) now) deps).2.1
            missing_dependencies :=
              (dependents_pass X now
                (save_element store (new_element X ty co de deps sf lr) now) deps).2.2
            missing_count :=
              (dependents_pass X now
                (save_element store (new_element X ty co de deps sf lr) now) deps).2.2.length } := by
      simp [add_code_element, h]
    rw [heq1]
    obtain ⟨hp1, hp2⟩ := dependents_pass_partition X now deps
      (save_element store (new_element X ty co de deps sf lr) now)
    have hfc1 : deps.filter
        (fun d => (load_element (save_element store (new_element X ty co de deps sf lr) now) d).isSome)
        = deps.filter (fun d => (load_element store d).isSome) :=
      List.filter_congr hcong
    have hfc2 : deps.filter
        (fun d => !(load_element (save_element store (new_element X ty co de deps sf lr) now) d).isSome)
        = deps.filter (fun d => !(load_element store d).isSome) :=
      List.filter_congr (fun d hd => by rw [hcong d hd])
    rw [hp1, hp2, hfc1, hfc2]
  · simp [find_missing_dependencies, hne, hr]
  · intro d hd hdnone
    have hlk : (find_missing_dependencies
        (add_code_element store X ty co de deps sf lr now).2 X).missing_dependencies =
        collect_missing
          ((add_code_element store X ty co de deps sf lr now).2.map (fun x => x.id)) [r] := by
      simp [find_missing_dependencies, hne, hr]
    rw [hlk]
    have hnotin : d ∉ (add_code_element store X ty co de deps sf lr now).2.map (fun x => x.id) := by
      intro hmem
      have := (load_element_isSome_iff _ d).mpr hmem
      rw [hpres d hd, hdnone] at this
      exact Bool.noConfusion this
    have hfold := fold_missing_reports
      ((add_code_element store X ty co de deps sf lr now).2.map (fun x => x.id)) r d
      r.dependencies [] (Or.inl ⟨hdeps ▸ hd, hnotin⟩)
    have hmk : mk_missing_ref r =
        ({ referencing_element := X, element_type := ty, description := de } : MissingRef) := by
      unfold mk_missing_ref
      rw [hid, hty, hdesc]
    rw [← hmk]
    simpa [collect_missing] using hfold

/-- C8 (witness): the amended statement at the concrete dangling add that
builds `danglingStore`. -/
theorem add_dangling_amended_witness :
    (add_code_element [] "a" "function" "code a" "da" ["b"] "" "" "t1").1.success = true ∧
    (∃ r, load_element (add_code_element [] "a" "function" "code a" "da" ["b"] "" "" "t1").2 "a"
        = some r ∧ r.dependencies = ["b"] ∧ r.dependents = []) ∧
    (add_code_element [] "a" "function" "code a" "da" ["b"] "" "" "t1").1.dependency_analysis = some
      { total_dependencies := (["b"] : List String).length
        existing_dependencies := (["b"] : List String).filter (fun d => (load_element [] d).isSome)
        missing_dependencies := (["b"] : List String).filter (fun d => !(load_element [] d).isSome)
        missing_count :=
          ((["b"] : List String).filter (fun d => !(load_element [] d).isSome)).length } ∧
    ((find_missing_dependencies
        (add_code_element [] "a" "function" "code a" "da" ["b"] "" "" "t1").2 "a").success = true ∧
      ∀ d ∈ (["b"] : List String), load_element [] d = none →
        ∃ rs, lookup_missing
            (find_missing_dependencies
              (add_code_element [] "a" "function" "code a" "da" ["b"] "" "" "t1").2
                "a").missing_dependencies d
          = some rs ∧
          ({ referencing_element := "a", element_type := "function", description := "da" } :
            MissingRef) ∈ rs) :=
  add_dangling_amended [] "a" "function" "code a" "da" ["b"] "" "" "t1"
    (by decide) (by decide) (by decide)

/-! ### Cleanup-pass lemmas and edit-mode lemmas -/

/-- The cleanup pass touches only `dependents` fields: the `dependencies`
projection of every record is unchanged. -/
theorem cleanup_pass_dependencies (eid now : String) (nd olds : List String) (st : Store)
    (i : String) :
    (load_element (cleanup_pass eid now nd st olds) i).map (fun r => r.dependencies) =
      (load_element st i).map (fun r => r.dependencies) := by
  induction olds generalizing st with
  | nil => simp [cleanup_pass]
  | cons o rest ih =>
    rw [cleanup_pass]
    by_cases ho : o ∈ nd
    · rw [if_pos ho]; exact ih st
    · rw [if_neg ho]
      cases hl : load_element st o with
      | none => exact ih st
      | some ode =>
        dsimp only
        by_cases hmem : eid ∈ ode.dependents
        · rw [if_pos hmem, ih]
          by_cases hio : i = ode.id
          · subst hio
            rw [load_save_self]
            have : load_element st ode.id = some ode := by rw [load_element_id hl, hl]
            rw [this]
            simp
          · rw [load_save_other st { ode with dependents := ode.dependents.erase eid } now i hio]
        · rw [if_neg hmem]; exact ih st

/-- The cleanup pass never creates or deletes records. -/
theorem cleanup_pass_isSome (eid now : String) (nd olds : List String) (st : Store)
    (i : String) :
    (load_element (cleanup_pass eid now nd st olds) i).isSome = (load_element st i).isSome := by
  induction olds generalizing st with
  | nil => simp [cleanup_pass]
  | cons o rest ih =>
    rw [cleanup_pass]
    by_cases ho : o ∈ nd
    · rw [if_pos ho]; exact ih st
    · rw [if_neg ho]
      cases hl : load_element st o with
      | none => exact ih st
      | some ode =>
        dsimp only
        by_cases hmem : eid ∈ ode.dependents
        · rw [if_pos hmem, ih]
          apply load_save_isSome
          show (load_element st ode.id).isSome = true
          rw [load_element_id hl, hl]
          rfl
        · rw [if_neg hmem]; exact ih st

/-- Records that appear in the new dependency list, or not at all among the
original dependencies, are untouched by the cleanup pass. -/
theorem cleanup_pass_load_other (eid now : String) (nd olds : List String) (st : Store)
    (i : String) (h : i ∈ nd ∨ i ∉ olds) :
    load_element (cleanup_pass eid now nd st olds) i = load_element st i := by
  induction olds generalizing st with
  | nil => simp [cleanup_pass]
  | cons o rest ih =>
    have hrest : i ∈ nd ∨ i ∉ rest := by
      rcases h with h | h
      · exact Or.inl h
      · exact Or.inr fun h2 => h (List.mem_cons_of_mem o h2)
    rw [cleanup_pass]
    by_cases ho : o ∈ nd
    · rw [if_pos ho]; exact ih st hrest
    · rw [if_neg ho]
      cases hl : load_element st o with
      | none => exact ih st hrest
      | some ode =>
        dsimp only
        by_cases hmem : eid ∈ ode.dependents
        · rw [if_pos hmem, ih _ hrest]
          apply load_save_other
          show i ≠ ode.id
          rw [load_element_id hl]
          rcases h with h | h
          · exact fun h2 => ho (h2 ▸ h)
          · exact fun h2 => h (h2 ▸ List.mem_cons_self o rest)
        · rw [if_neg hmem]; exact ih st hrest

/-- The `add` mode fold appends exactly the first occurrences of the input
ids that are not already present, in input order. -/
theorem add_fold_eq (input : List String) : ∀ current : List String,
    input.foldl (fun acc dep => if dep ∈ acc then acc else acc ++ [dep]) current =
      current ++ dedupFirst (input.filter (fun a => a ∉ current)) := by
  induction input with
  | nil => intro current; simp [dedupFirst]
  | cons x xs ih =>
    intro current
    rw [List.foldl_cons]
    by_cases hx : x ∈ current
    · rw [if_pos hx, ih current]
      have hfe : (x :: xs).filter (fun a => a ∉ current) = xs.filter (fun a => a ∉ current) := by
        simp [List.filter_cons, hx]
      rw [hfe]
    · rw [if_neg hx, ih (current ++ [x])]
      have hfe : (x :: xs).filter (fun a => a ∉ current) =
          x :: xs.filter (fun a => a ∉ current) := by
        simp [List.filter_cons, hx]
      rw [hfe, dedupFirst]
      have hff : (xs.filter (fun a => a ∉ current)).filter (fun a => a ≠ x) =
          xs.filter (fun a => a ∉ current ++ [x]) := by
        rw [List.filter_filter]
        apply List.filter_congr
        intro a _
        by_cases h1 : a = x <;> by_cases h2 : a ∈ current <;> simp [h1, h2]
      rw [hff, List.append_cons, List.append_assoc]
      simp

/-- On a duplicate-free list, the `remove` mode fold computes the
order-preserving set difference. -/
theorem remove_fold_eq (input : List String) : ∀ l : List String, l.Nodup →
    input.foldl (fun acc dep => if dep ∈ acc then acc.erase dep else acc) l =
      l.filter (fun a => a ∉ input) := by
  induction input with
  | nil =>
    intro l _
    rw [List.foldl_nil]
    have : ∀ a ∈ l, (decide (a ∉ ([] : List String))) = true := by intro a _; simp
    exact (List.filter_eq_self.mpr this).symm
  | cons x xs ih =>
    intro l hnd
    rw [List.foldl_cons]
    by_cases hx : x ∈ l
    · rw [if_pos hx, hnd.erase_eq_filter, ih _ (hnd.filter _), List.filter_filter]
      apply List.filter_congr
      intro a _
      by_cases h1 : a = x <;> by_cases h2 : a ∈ xs <;> simp [h1, h2]
    · rw [if_neg hx, ih _ hnd]
      apply List.filter_congr
      intro a ha
      have hax : a ≠ x := fun h2 => hx (h2 ▸ ha)
      by_cases h2 : a ∈ xs <;> simp [h2, hax]

/-- Success-path characterization of `edit_dependencies`: when the element
exists and the mode is valid, the call succeeds and the stored record holds
exactly the computed dependency list. -/
theorem edit_dependencies_newDeps (store : Store) (element_id : String) (e : CodeElement)
    (input : List String) (op now : String) (nd : List String)
    (h : load_element store element_id = some e)
    (hop : apply_operation e.dependencies input op = some nd) :
    (edit_dependencies store element_id input op now).1.success = true ∧
    ∃ r, load_element (edit_dependencies store element_id input op now).2 element_id = some r ∧
      r.dependencies = nd := by
  have heid : e.id = element_id := load_element_id h
  have heq : (edit_dependencies store element_id input op now).2 =
      (dependents_pass element_id now
        (cleanup_pass element_id now nd
          (save_element store { e with dependencies := nd } now) e.dependencies) nd).1 := by
    simp [edit_dependencies, h, hop]
  refine ⟨by simp [edit_dependencies, h, hop], ?_⟩
  have h1 : load_element (save_element store { e with dependencies := nd } now) element_id =
      some (stamp { e with dependencies := nd } now) := by
    rw [← show ({ e with dependencies := nd } : CodeElement).id = element_id from heid]
    exact load_save_self store _ now
  have h2 : (load_element
      (cleanup_pass element_id now nd
        (save_element store { e with dependencies := nd } now) e.dependencies)
      element_id).map (fun r => r.dependencies) = some nd := by
    rw [cleanup_pass_dependencies, h1]
    simp
  obtain ⟨r1, hr1, hr1d⟩ := Option.map_eq_some'.mp h2
  obtain ⟨r2, hr2, hdeps, _, _, _, _⟩ :=
    dependents_pass_load element_id now nd _ element_id r1 hr1
  rw [heq]
  exact ⟨r2, hr2, hdeps.trans hr1d⟩

/-- C3 (counterexample): `a` stores the dependency list `["x", "x"]`
(reachable by a single add); removing `["x"]` leaves `["x"]`, not the set
difference `[]` the claim requires. -/
theorem edit_remove_counterexample :
    (edit_dependencies dupDepStore "a" ["x"] "remove" "t2").1.success = true ∧
    ∃ r, load_element (edit_dependencies dupDepStore "a" ["x"] "remove" "t2").2 "a" = some r ∧
      r.dependencies = ["x"] := by
  refine ⟨by decide,
    (load_element (edit_dependencies dupDepStore "a" ["x"] "remove" "t2").2 "a").get (by decide),
    by decide, by decide⟩

/-- C3 (amended): for an existing element, `replace` installs exactly the
input list; `add` appends the unseen input ids in order without introducing
duplicates; `remove` erases one stored occurrence per input occurrence —
which equals the order-preserving set difference whenever the stored list is
duplicate-free, but leaves later duplicates behind otherwise; any other mode
fails and leaves the store unchanged. -/
theorem edit_dependencies_modes (store : Store) (element_id : String) (e : CodeElement)
    (input : List String) (now : String) (h : load_element store element_id = some e) :
    ((edit_dependencies store element_id input "replace" now).1.success = true ∧
      ∃ r, load_element (edit_dependencies store element_id input "replace" now).2 element_id
          = some r ∧ r.dependencies = input) ∧
    ((edit_dependencies store element_id input "add" now).1.success = true ∧
      ∃ r, load_element (edit_dependencies store element_id input "add" now).2 element_id
          = some r ∧
        r.dependencies = e.dependencies ++ dedupFirst (input.filter (fun a => a ∉ e.dependencies))) ∧
    (e.dependencies.Nodup →
      (edit_dependencies store element_id input "remove" now).1.success = true ∧
      ∃ r, load_element (edit_dependencies store element_id input "remove" now).2 element_id
          = some r ∧ r.dependencies = e.dependencies.filter (fun a => a ∉ input)) ∧
    (∀ op, op ≠ "replace" → op ≠ "add" → op ≠ "remove" →
      (edit_dependencies store element_id input op now).1.success = false ∧
      (edit_dependencies store element_id input op now).2 = store) := by
  refine ⟨?_, ?_, ?_, ?_⟩
  · exact edit_dependencies_newDeps store element_id e input "replace" now input h
      (by simp [apply_operation])
  · exact edit_dependencies_newDeps store element_id e input "add" now _ h
      (by simp [apply_operation]) |>.imp id (Exists.imp fun r hr =>
        ⟨hr.1, hr.2.trans (add_fold_eq input e.dependencies)⟩)
  · intro hnd
    exact edit_dependencies_newDeps store element_id e input "remove" now _ h
      (by simp [apply_operation]) |>.imp id (Exists.imp fun r hr =>
        ⟨hr.1, hr.2.trans (remove_fold_eq input e.dependencies hnd)⟩)
  · intro op h1 h2 h3
    have hop : apply_operation e.dependencies input op = none := by
      simp [apply_operation, h1, h2, h3]
    constructor <;> simp [edit_dependencies, h, hop]

/-- The stored record for `b` in `statsStore`. -/
def statsElemB : CodeElement :=
  { id := "b", type := "function", code := "code b", description := "db"
    dependencies := [], dependents := ["a"], source_file := none, line_range := none
    created_at := "t1", updated_at := "t2" }

/-- The stored record for `a` in `statsStore`. -/
def statsElemA : CodeElement :=
  { id := "a", type := "function", code := "code a", description := "da"
    dependencies := ["b", "g"], dependents := [], source_file := none, line_range := none
    created_at := "t2", updated_at := "t2" }

/-- C3 (witness): the remove mode on the duplicate-free list `["b", "g"]`
computes the set difference. -/
theorem edit_dependencies_modes_witness :
    (edit_dependencies statsStore "a" ["g", "z"] "remove" "t9").1.success = true ∧
    ∃ r, load_element (edit_dependencies statsStore "a" ["g", "z"] "remove" "t9").2 "a"
        = some r ∧ r.dependencies = statsElemA.dependencies.filter (fun a => a ∉ ["g", "z"]) :=
  (edit_dependencies_modes statsStore "a" statsElemA ["g", "z"] "t9" (by decide)).2.2.1 (by decide)

/-! ### C4: tree view on an absent root -/

/-- C4 (counterexample): on the empty store with a root id that has no
record, the view call reports success ("Knowledge tree is empty"), not a
NotFound failure. -/
theorem tree_view_empty_counterexample :
    (get_knowledge_tree_view [] "ghost" 3).success = true ∧
    (get_knowledge_tree_view [] "ghost" 3).message = "Knowledge tree is empty" := by
  constructor <;> rfl

/-- C4 (amended): on every NON-empty store, a non-empty root id with no
record makes `get_knowledge_tree_view` fail; the empty store instead
short-circuits to a successful "Knowledge tree is empty" reply whatever the
root argument is. -/
theorem tree_view_root_not_found (store : Store) (root : String) (max_depth : Nat)
    (h1 : store ≠ []) (h2 : root ≠ "") (h3 : load_element store root = none) :
    (get_knowledge_tree_view store root max_depth).success = false := by
  have hne : store.isEmpty = false := by
    cases store with
    | nil => exact absurd rfl h1
    | cons x rest => rfl
  simp [get_knowledge_tree_view, hne, h2, h3]

/-- C4 (witness). -/
theorem tree_view_root_not_found_witness :
    (get_knowledge_tree_view danglingStore "zz" 3).success = false :=
  tree_view_root_not_found danglingStore "zz" 3 (by decide) (by decide) (by decide)

/-! ### C5: termination of the tree traversal -/

/-- The structural fuel is immaterial as soon as it covers the
`depth > max_depth` cutoff: the recursion is bounded by the guard alone, so
the source's unbounded recursion terminates with exactly this output. -/
theorem build_fuel_irrel (st : Store) (maxd : Nat) :
    ∀ (f1 f2 : Nat) (i : String) (depth : Nat) (visited : List String),
      maxd + 1 - depth ≤ f1 → maxd + 1 - depth ≤ f2 →
      build_tree_recursive st maxd f1 i depth visited =
        build_tree_recursive st maxd f2 i depth visited := by
  intro f1
  induction f1 with
  | zero =>
    intro f2 i depth visited h1 h2
    have hd : depth > maxd := by omega
    cases f2 with
    | zero => rfl
    | succ b =>
      show ([] : List String) = _
      rw [build_tree_recursive, if_pos (Or.inl hd)]
  | succ a ih =>
    intro f2 i depth visited h1 h2
    cases f2 with
    | zero =>
      have hd : depth > maxd := by omega
      show _ = ([] : List String)
      rw [build_tree_recursive, if_pos (Or.inl hd)]
    | succ b =>
      rw [build_tree_recursive, build_tree_recursive]
      by_cases hg : depth > maxd ∨ i ∈ visited
      · rw [if_pos hg, if_pos hg]
      · rw [if_neg hg, if_neg hg]
        have hdm : depth ≤ maxd := by
          by_contra hc
          exact hg (Or.inl (by omega))
        cases hl : load_element st i with
        | none => rfl
        | some el =>
          dsimp only
          congr 1
          apply congrArg List.flatten
          apply List.map_congr_left
          intro dep _
          exact ih b dep (depth + 1) (i :: visited) (by omega) (by omega)

/-- The guard returns immediately past the depth bound or on an id already
on the current path. -/
theorem build_guard_stop (st : Store) (maxd f : Nat) (i : String) (depth : Nat)
    (visited : List String) (h : depth > maxd ∨ i ∈ visited) :
    build_tree_recursive st maxd f i depth visited = [] := by
  cases f with
  | zero => rfl
  | succ a => rw [build_tree_recursive, if_pos h]

/-- C5: the traversal terminates on every store and depth bound — its output
is fixed by the `depth > max_depth` cutoff and the per-path `visited` guard,
independently of the structural recursion budget; on the cycle `a → b → a`
it renders `a` then `b` and stops instead of repeating `a`, while in the
diamond `r → x → a`, `r → y → a` the shared leaf renders under both sibling
branches because each child receives its own copy of the path. -/
theorem tree_traversal_terminates :
    (∀ (st : Store) (maxd f1 f2 : Nat) (i : String) (depth : Nat) (visited : List String),
        maxd + 1 - depth ≤ f1 → maxd + 1 - depth ≤ f2 →
        build_tree_recursive st maxd f1 i depth visited =
          build_tree_recursive st maxd f2 i depth visited) ∧
    (∀ (st : Store) (maxd f : Nat) (i : String) (depth : Nat) (visited : List String),
        depth > maxd ∨ i ∈ visited → build_tree_recursive st maxd f i depth visited = []) ∧
    build_tree_recursive cycleStore 10 11 "a" 0 [] =
      ["a [function] - da", "  ├── b [function] - db"] ∧
    (build_tree_recursive diamondStore 3 4 "r" 0 []).count "    ├── a [function] - da" = 2 := by
  refine ⟨fun st maxd f1 f2 => build_fuel_irrel st maxd f1 f2, build_guard_stop, ?_, ?_⟩
  · decide
  · decide

/-- C5 (witness): concrete instantiations of the two universally quantified
conjuncts. -/
theorem tree_traversal_terminates_witness :
    build_tree_recursive cycleStore 10 11 "a" 0 [] =
      build_tree_recursive cycleStore 10 50 "a" 0 [] ∧
    build_tree_recursive cycleStore 10 11 "b" 12 [] = [] :=
  ⟨tree_traversal_terminates.1 cycleStore 10 11 50 "a" 0 [] (by decide) (by decide),
   tree_traversal_terminates.2.1 cycleStore 10 11 "b" 12 [] (Or.inl (by decide))⟩

/-! ### Cleanup-pass removal lemmas -/

/-- Once `eid` is absent from a record's `dependents`, the cleanup pass
keeps it absent. -/
theorem cleanup_pass_not_mem_preserved (eid now : String) (nd : List String) :
    ∀ (olds : List String) (st : Store) (k : String),
      (∀ r, load_element st k = some r → eid ∉ r.dependents) →
      ∀ r', load_element (cleanup_pass eid now nd st olds) k = some r' →
        eid ∉ r'.dependents := by
  intro olds
  induction olds with
  | nil =>
    intro st k h r' hr'
    exact h r' (by simpa [cleanup_pass] using hr')
  | cons o rest ih =>
    intro st k h r' hr'
    rw [cleanup_pass] at hr'
    by_cases ho : o ∈ nd
    · rw [if_pos ho] at hr'
      exact ih st k h r' hr'
    · rw [if_neg ho] at hr'
      cases hl : load_element st o with
      | none =>
        rw [hl] at hr'
        exact ih st k h r' hr'
      | some ode =>
        rw [hl] at hr'
        dsimp only at hr'
        by_cases hmem : eid ∈ ode.dependents
        · rw [if_pos hmem] at hr'
          refine ih _ k ?_ r' hr'
          intro r hr
          by_cases hk : k = ode.id
          · have hko2 : load_element st ode.id = some ode := by
              rw [load_element_id hl]
              exact hl
            exact absurd hmem (h ode (hk ▸ hko2))
          · rw [load_save_other st { ode with dependents := ode.dependents.erase eid } now k hk]
              at hr
            exact h r hr
        · rw [if_neg hmem] at hr'
          exact ih st k h r' hr'

/-- A dependency that was listed and is no longer listed has `eid` scrubbed
from its `dependents` by the cleanup pass, provided `eid` occurred at most
once there. -/
theorem cleanup_pass_removes (eid now : String) (nd : List String) :
    ∀ (olds : List String) (st : Store) (k : String) (r0 : CodeElement),
      k ∈ olds → k ∉ nd → load_element st k = some r0 →
      r0.dependents.count eid ≤ 1 →
      ∀ r', load_element (cleanup_pass eid now nd st olds) k = some r' →
        eid ∉ r'.dependents := by
  intro olds
  induction olds with
  | nil =>
    intro st k r0 hk
    simp at hk
  | cons o rest ih =>
    intro st k r0 hk hknd hl0 hcount r' hr'
    rw [cleanup_pass] at hr'
    by_cases ho : o ∈ nd
    · rw [if_pos ho] at hr'
      have hko : k ≠ o := fun h2 => hknd (h2 ▸ ho)
      have hkrest : k ∈ rest := by
        rcases List.mem_cons.mp hk with h2 | h2
        · exact absurd h2 hko
        · exact h2
      exact ih st k r0 hkrest hknd hl0 hcount r' hr'
    · rw [if_neg ho] at hr'
      cases hl : load_element st o with
      | none =>
        rw [hl] at hr'
        have hko : k ≠ o := by
          intro h2
          rw [h2, hl] at hl0
          exact Option.noConfusion hl0
        have hkrest : k ∈ rest := by
          rcases List.mem_cons.mp hk with h2 | h2
          · exact absurd h2 hko
          · exact h2
        exact ih st k r0 hkrest hknd hl0 hcount r' hr'
      | some ode =>
        rw [hl] at hr'
        dsimp only at hr'
        by_cases hmem : eid ∈ ode.dependents
        · rw [if_pos hmem] at hr'
          by_cases hko : k = o
          · have hr0 : r0 = ode := by
              rw [hko, hl] at hl0
              exact (Option.some.inj hl0).symm
            have hnotin : eid ∉ ode.dependents.erase eid := by
              have h1 : ode.dependents.count eid ≤ 1 := by
                rw [← hr0]
                exact hcount
              have h2 : (ode.dependents.erase eid).count eid = 0 := by
                rw [List.count_erase_self]
                omega
              exact List.count_eq_zero.mp h2
            refine cleanup_pass_not_mem_preserved eid now nd rest _ k ?_ r' hr'
            intro r hr
            have hsv : load_element
                (save_element st { ode with dependents := ode.dependents.erase eid } now) k =
                some (stamp { ode with dependents := ode.dependents.erase eid } now) := by
              rw [hko, ← load_element_id hl]
              exact load_save_self st _ now
            rw [hsv] at hr
            rw [← Option.some.inj hr]
            simpa using hnotin
          · have hkrest : k ∈ rest := by
              rcases List.mem_cons.mp hk with h2 | h2
              · exact absurd h2 hko
              · exact h2
            have hl0b : load_element
                (save_element st { ode with dependents := ode.dependents.erase eid } now) k =
                some r0 := by
              rw [load_save_other st { ode with dependents := ode.dependents.erase eid } now k
                (show k ≠ ode.id from fun h2 => hko (by rw [h2, load_element_id hl]))]
              exact hl0
            exact ih _ k r0 hkrest hknd hl0b hcount r' hr'
        · rw [if_neg hmem] at hr'
          by_cases hko : k = o
          · have hr0 : r0 = ode := by
              rw [hko, hl] at hl0
              exact (Option.some.inj hl0).symm
            refine cleanup_pass_not_mem_preserved eid now nd rest st k ?_ r' hr'
            intro r hr
            rw [hl0] at hr
            rw [← Option.some.inj hr, hr0]
            exact hmem
          · have hkrest : k ∈ rest := by
              rcases List.mem_cons.mp hk with h2 | h2
              · exact absurd h2 hko
              · exact h2
            exact ih st k r0 hkrest hknd hl0 hcount r' hr'

/-! ### C9: update semantics -/

/-- C9 (counterexample): element `e` holds a reciprocated self-loop
(`dependencies = dependents = ["e"]`).  Updating it with the explicit empty
dependency list removes the dependency, and the removed dependency `e`
exists, so by the claim it must lose `e` from its dependents — but the final
save of the element writes back the stale pre-call `dependents`, leaving
`["e"]`. -/
theorem update_self_counterexample :
    (update_code_element selfStore "e" "" "" (some []) "" "" "t2").1.success = true ∧
    ∃ r, load_element (update_code_element selfStore "e" "" "" (some []) "" "" "t2").2 "e"
        = some r ∧ r.dependencies = [] ∧ "e" ∈ r.dependents := by
  refine ⟨by decide,
    (load_element (update_code_element selfStore "e" "" "" (some []) "" "" "t2").2 "e").get
      (by decide), by decide, by decide, by decide⟩

/-- C9 (amended): for an existing element, empty or whitespace-only strings
for code, description, source_file and line_range leave the stored fields
untouched; with no effective field the call fails and the store is
unchanged; a provided dependencies value — including the explicit empty
list — replaces the list and runs the replace-mode reciprocity maintenance,
PROVIDED the element does not list itself before or after the update (a
self-referential update loses the reciprocal self-edit because the final
save writes back the element's stale pre-call dependents) and dependents
lists hold at most one occurrence of the id. -/
theorem update_code_element_spec (store : Store) (element_id : String) (e : CodeElement)
    (code description source_file line_range now : String)
    (h : load_element store element_id = some e)
    (hc : strip code = "") (hd : strip description = "")
    (hs : strip source_file = "") (hl : strip line_range = "") :
    ((update_code_element store element_id code description none source_file line_range now).1.success
        = false ∧
      (update_code_element store element_id code description none source_file line_range now).2
        = store) ∧
    (∀ ds : List String, element_id ∉ ds → element_id ∉ e.dependencies →
      (update_code_element store element_id code description (some ds) source_file line_range
          now).1.success = true ∧
      (∃ r, load_element
          (update_code_element store element_id code description (some ds) source_file line_range
            now).2 element_id = some r ∧
        r.code = e.code ∧ r.description = e.description ∧ r.source_file = e.source_file ∧
        r.line_range = e.line_range ∧ r.dependencies = ds) ∧
      (∀ d ∈ ds, ∀ rd, load_element store d = some rd →
        ∃ rd', load_element
            (update_code_element store element_id code description (some ds) source_file line_range
              now).2 d = some rd' ∧ element_id ∈ rd'.dependents) ∧
      (∀ d ∈ e.dependencies, d ∉ ds → ∀ rd, load_element store d = some rd →
        rd.dependents.count element_id ≤ 1 →
        ∃ rd', load_element
            (update_code_element store element_id code description (some ds) source_file line_range
              now).2 d = some rd' ∧ element_id ∉ rd'.dependents)) := by
  have heid : e.id = element_id := load_element_id h
  constructor
  · constructor <;> simp [update_code_element, h, hc, hd, hs, hl]
  · intro ds hnotds hnotolds
    have heq : (update_code_element store element_id code description (some ds) source_file
        line_range now).2 =
        save_element
          (dependents_pass element_id now
            (cleanup_pass element_id now ds store e.dependencies) ds).1
          { e with dependencies := ds } now := by
      simp [update_code_element, h, hc, hd, hs, hl]
    refine ⟨by simp [update_code_element, h, hc, hd, hs, hl], ?_, ?_, ?_⟩
    · refine ⟨stamp { e with dependencies := ds } now, ?_, by simp, by simp, by simp, by simp,
        by simp⟩
      rw [heq, ← heid]
      exact load_save_self _ _ now
    · intro d hdds rd hrd
      have hdne : d ≠ element_id := fun h2 => hnotds (h2 ▸ hdds)
      have hcp : load_element (cleanup_pass element_id now ds store e.dependencies) d =
          some rd := by
        rw [cleanup_pass_load_other element_id now ds e.dependencies store d (Or.inl hdds)]
        exact hrd
      obtain ⟨r2, hr2, _, _, _, _, hdep⟩ :=
        dependents_pass_load element_id now ds _ d rd hcp
      refine ⟨r2, ?_, ?_⟩
      · rw [heq, load_save_other _ _ _ _ (show d ≠ ({ e with dependencies := ds } :
          CodeElement).id from fun h2 => hdne (h2.trans heid))]
        exact hr2
      · rw [hdep]
        by_cases hin : element_id ∈ rd.dependents
        · simp [hdds, hin]
        · simp [hdds, hin]
    · intro d hdolds hdnotds rd hrd hcnt
      have hdne : d ≠ element_id := fun h2 => hnotolds (h2 ▸ hdolds)
      have hcpSome : (load_element (cleanup_pass element_id now ds store e.dependencies) d).isSome
          = true := by
        rw [cleanup_pass_isSome, hrd]
        rfl
      obtain ⟨rc, hrc⟩ := Option.isSome_iff_exists.mp hcpSome
      have hrcnot : element_id ∉ rc.dependents :=
        cleanup_pass_removes element_id now ds e.dependencies store d rd hdolds hdnotds hrd hcnt
          rc hrc
      have hdp : load_element (dependents_pass element_id now
          (cleanup_pass element_id now ds store e.dependencies) ds).1 d = some rc := by
        rw [dependents_pass_load_other element_id now ds _ d hdnotds]
        exact hrc
      refine ⟨rc, ?_, hrcnot⟩
      rw [heq, load_save_other _ _ _ _ (show d ≠ ({ e with dependencies := ds } :
        CodeElement).id from fun h2 => hdne (h2.trans heid))]
      exact hdp

/-- C9 (witness): updating `a` in `statsStore` with dependencies `["b"]`
keeps the whitespace-skipped fields, installs the new list, and maintains
the reciprocal edges of `b` (gained) and of the dropped dependency. -/
theorem update_code_element_spec_witness :
    (update_code_element statsStore "a" "" "" (some ["b"]) "" "" "t9").1.success = true ∧
    (∃ r, load_element (update_code_element statsStore "a" "" "" (some ["b"]) "" "" "t9").2 "a"
        = some r ∧
      r.code = statsElemA.code ∧ r.description = statsElemA.description ∧
      r.source_file = statsElemA.source_file ∧ r.line_range = statsElemA.line_range ∧
      r.dependencies = ["b"]) ∧
    (∀ d ∈ (["b"] : List String), ∀ rd, load_element statsStore d = some rd →
      ∃ rd', load_element (update_code_element statsStore "a" "" "" (some ["b"]) "" "" "t9").2 d
          = some rd' ∧ "a" ∈ rd'.dependents) ∧
    (∀ d ∈ statsElemA.dependencies, d ∉ (["b"] : List String) →
      ∀ rd, load_element statsStore d = some rd → rd.dependents.count "a" ≤ 1 →
      ∃ rd', load_element (update_code_element statsStore "a" "" "" (some ["b"]) "" "" "t9").2 d
          = some rd' ∧ "a" ∉ rd'.dependents) :=
  (update_code_element_spec statsStore "a" statsElemA "" "" "" "" "t9" (by decide)
    (by decide) (by decide) (by decide) (by decide)).2 ["b"] (by decide) (by decide)

/-! ### C6: remove_element lemmas -/

theorem save_list_map_id (st : Store) (e : CodeElement) (h : e.id ∈ st.map (fun x => x.id)) :
    (save_list st e).map (fun x => x.id) = st.map (fun x => x.id) := by
  induction st with
  | nil => simp at h
  | cons x rest ih =>
    by_cases hx : x.id = e.id
    · simp [save_list, hx]
    · have h2 : e.id ∈ rest.map (fun x => x.id) := by
        simp only [List.map_cons, List.mem_cons] at h
        rcases h with h3 | h3
        · exact absurd h3 fun h4 => hx h4.symm
        · exact h3
      simp [save_list, hx, ih h2]

theorem save_element_map_id (st : Store) (e : CodeElement) (now : String)
    (h : e.id ∈ st.map (fun x => x.id)) :
    (save_element st e now).map (fun x => x.id) = st.map (fun x => x.id) := by
  unfold save_element
  exact save_list_map_id st (stamp e now) (by simpa using h)

theorem load_self_of_nodup (st : Store) (hnd : (st.map (fun x => x.id)).Nodup)
    (o : CodeElement) (ho : o ∈ st) : load_element st o.id = some o := by
  induction st with
  | nil => simp at ho
  | cons x rest ih =>
    rcases List.mem_cons.mp ho with h2 | h2
    · subst h2
      simp [load_element]
    · have hx : x.id ≠ o.id := by
        intro hxe
        have : o.id ∈ rest.map (fun x => x.id) := List.mem_map_of_mem _ h2
        rw [← hxe] at this
        exact (List.nodup_cons.mp (by simpa using hnd)).1 this
      rw [load_element, if_neg hx]
      exact ih (List.nodup_cons.mp (by simpa using hnd)).2 h2

theorem load_none_of_not_mem (st : Store) (k : String) (h : k ∉ st.map (fun x => x.id)) :
    load_element st k = none := by
  cases hl : load_element st k with
  | none => rfl
  | some r =>
    have : (load_element st k).isSome = true := by rw [hl]; rfl
    exact absurd ((load_element_isSome_iff st k).mp this) h

/-- The per-element removal step: the processed record ends with `eid`
erased once from each list. -/
theorem remove_step_load_self (eid now : String) (st : Store) (other : CodeElement)
    (h : load_element st other.id = some other) :
    ∃ r', load_element (remove_step eid now st other).1 other.id = some r' ∧
      r'.dependencies =
        (if eid ∈ other.dependencies then other.dependencies.erase eid
          else other.dependencies) ∧
      r'.dependents =
        (if eid ∈ other.dependents then other.dependents.erase eid else other.dependents) := by
  unfold remove_step
  by_cases hdep : eid ∈ other.dependencies <;>
    by_cases hdts : eid ∈ other.dependents <;>
      simp only [hdep, hdts, if_pos, if_neg, if_true, if_false, ite_true, ite_false,
        not_false_iff]
  · exact ⟨_, load_save_self _ _ now, by simp, by simp⟩
  · exact ⟨_, load_save_self _ _ now, by simp, by simp⟩
  · exact ⟨_, load_save_self _ _ now, by simp, by simp⟩
  · exact ⟨other, h, rfl, rfl⟩

theorem remove_step_load_other (eid now : String) (st : Store) (other : CodeElement)
    (k : String) (h : k ≠ other.id) :
    load_element (remove_step eid now st other).1 k = load_element st k := by
  unfold remove_step
  by_cases hdep : eid ∈ other.dependencies <;>
    by_cases hdts : eid ∈ other.dependents <;>
      simp only [hdep, hdts, if_pos, if_neg, if_true, if_false, ite_true, ite_false,
        not_false_iff]
  · rw [load_save_other _
        { other with dependencies := other.dependencies.erase eid
                     dependents := other.dependents.erase eid } now k h,
      load_save_other _ { other with dependencies := other.dependencies.erase eid } now k h]
  · rw [load_save_other _ { other with dependencies := other.dependencies.erase eid } now k h]
  · rw [load_save_other _ { other with dependents := other.dependents.erase eid } now k h]

theorem remove_step_map_id (eid now : String) (st : Store) (other : CodeElement)
    (h : other.id ∈ st.map (fun x => x.id)) :
    (remove_step eid now st other).1.map (fun x => x.id) = st.map (fun x => x.id) := by
  unfold remove_step
  by_cases hdep : eid ∈ other.dependencies <;>
    by_cases hdts : eid ∈ other.dependents <;>
      simp only [hdep, hdts, if_pos, if_neg, if_true, if_false, ite_true, ite_false,
        not_false_iff]
  · rw [save_element_map_id _
        { other with dependencies := other.dependencies.erase eid
                     dependents := other.dependents.erase eid } now
        (by rw [save_element_map_id st
            { other with dependencies := other.dependencies.erase eid } now h]
            exact h),
      save_element_map_id st { other with dependencies := other.dependencies.erase eid } now h]
  · rw [save_element_map_id st { other with dependencies := other.dependencies.erase eid } now h]
  · rw [save_element_map_id st { other with dependents := other.dependents.erase eid } now h]

theorem remove_step_tags (eid now : String) (st : Store) (other : CodeElement) :
    (eid ∈ other.dependencies →
      (other.id ++ " (removed from dependencies)") ∈ (remove_step eid now st other).2) ∧
    (eid ∈ other.dependents →
      (other.id ++ " (removed from dependents)") ∈ (remove_step eid now st other).2) := by
  unfold remove_step
  by_cases hdep : eid ∈ other.dependencies <;>
    by_cases hdts : eid ∈ other.dependents <;>
      simp [hdep, hdts]

/-- Records whose id does not occur in the processed snapshot are untouched
by the scan. -/
theorem remove_pass_load_other (eid now : String) :
    ∀ (l : List CodeElement) (st : Store) (k : String),
      k ∉ l.map (fun x => x.id) →
      load_element (remove_pass eid now st l).1 k = load_element st k := by
  intro l
  induction l with
  | nil => intro st k _; rfl
  | cons x rest ih =>
    intro st k hk
    have hkx : k ≠ x.id := fun h2 => hk (by simp [h2])
    have hkrest : k ∉ rest.map (fun e => e.id) := fun h2 => hk (by simp [h2])
    rw [remove_pass]
    by_cases hx : x.id = eid
    · rw [if_pos hx]
      exact ih st k hkrest
    · rw [if_neg hx]
      dsimp only
      rw [ih _ k hkrest, remove_step_load_other eid now st x k hkx]

theorem remove_pass_map_id (eid now : String) :
    ∀ (l : List CodeElement) (st : Store),
      (∀ o ∈ l, o.id ∈ st.map (fun x => x.id)) →
      (remove_pass eid now st l).1.map (fun x => x.id) = st.map (fun x => x.id) := by
  intro l
  induction l with
  | nil => intro st _; rfl
  | cons x rest ih =>
    intro st hmem
    rw [remove_pass]
    by_cases hx : x.id = eid
    · rw [if_pos hx]
      exact ih st fun o ho => hmem o (List.mem_cons_of_mem x ho)
    · rw [if_neg hx]
      dsimp only
      have hstep := remove_step_map_id eid now st x (hmem x (List.mem_cons_self x rest))
      rw [ih _ (fun o ho => by rw [hstep]; exact hmem o (List.mem_cons_of_mem x ho)), hstep]

/-- The record of a snapshot element other than the removed one ends with
`eid` erased once from each of its lists. -/
theorem remove_pass_load (eid now : String) :
    ∀ (l : List CodeElement) (st : Store) (o : CodeElement),
      (l.map (fun x => x.id)).Nodup → o ∈ l → o.id ≠ eid →
      load_element st o.id = some o →
      ∃ r', load_element (remove_pass eid now st l).1 o.id = some r' ∧
        r'.dependencies =
          (if eid ∈ o.dependencies then o.dependencies.erase eid else o.dependencies) ∧
        r'.dependents =
          (if eid ∈ o.dependents then o.dependents.erase eid else o.dependents) := by
  intro l
  induction l with
  | nil => intro st o _ ho; simp at ho
  | cons x rest ih =>
    intro st o hnd ho hne hload
    have hnd1 : (x.id :: rest.map (fun e => e.id)).Nodup := by
      simpa only [List.map_cons] using hnd
    have hnd2 := List.nodup_cons.mp hnd1
    rcases List.mem_cons.mp ho with hox | hox
    · subst hox
      rw [remove_pass, if_neg hne]
      dsimp only
      obtain ⟨r', hr', hd1, hd2⟩ := remove_step_load_self eid now st o hload
      have hrest : o.id ∉ rest.map (fun x => x.id) := hnd2.1
      rw [remove_pass_load_other eid now rest _ o.id hrest]
      exact ⟨r', hr', hd1, hd2⟩
    · have hxo : x.id ≠ o.id := by
        intro hxe
        exact hnd2.1 (hxe ▸ List.mem_map_of_mem _ hox)
      rw [remove_pass]
      by_cases hx : x.id = eid
      · rw [if_pos hx]
        exact ih st o hnd2.2 hox hne hload
      · rw [if_neg hx]
        dsimp only
        have hload2 : load_element (remove_step eid now st x).1 o.id = some o := by
          rw [remove_step_load_other eid now st x o.id (fun h2 => hxo h2.symm)]
          exact hload
        exact ih _ o hnd2.2 hox hne hload2

/-- Every change made by the scan is reported in the collected tags. -/
theorem remove_pass_reports (eid now : String) :
    ∀ (l : List CodeElement) (st : Store) (o : CodeElement),
      o ∈ l → o.id ≠ eid →
      (eid ∈ o.dependencies →
        (o.id ++ " (removed from dependencies)") ∈ (remove_pass eid now st l).2) ∧
      (eid ∈ o.dependents →
        (o.id ++ " (removed from dependents)") ∈ (remove_pass eid now st l).2) := by
  intro l
  induction l with
  | nil => intro st o ho; simp at ho
  | cons x rest ih =>
    intro st o ho hne
    rcases List.mem_cons.mp ho with hox | hox
    · subst hox
      rw [remove_pass, if_neg hne]
      dsimp only
      obtain ⟨ht1, ht2⟩ := remove_step_tags eid now st o
      exact ⟨fun hm => List.mem_append_left _ (ht1 hm),
        fun hm => List.mem_append_left _ (ht2 hm)⟩
    · rw [remove_pass]
      by_cases hx : x.id = eid
      · rw [if_pos hx]
        exact ih st o hox hne
      · rw [if_neg hx]
        dsimp only
        obtain ⟨ht1, ht2⟩ := ih (remove_step eid now st x).1 o hox hne
        exact ⟨fun hm => List.mem_append_right _ (ht1 hm),
          fun hm => List.mem_append_right _ (ht2 hm)⟩

theorem delete_record_other (st : Store) (i k : String) (h : k ≠ i) :
    load_element (delete_record st i) k = load_element st k := by
  induction st with
  | nil => rfl
  | cons x rest ih =>
    by_cases hx : x.id = i
    · rw [delete_record, if_pos hx, load_element, if_neg (hx ▸ fun h2 => h h2.symm)]
    · rw [delete_record, if_neg hx]
      by_cases hxk : x.id = k
      · rw [load_element, if_pos hxk, load_element, if_pos hxk]
      · rw [load_element, if_neg hxk, load_element, if_neg hxk, ih]

theorem delete_record_self (st : Store) (i : String)
    (hnd : (st.map (fun x => x.id)).Nodup) :
    load_element (delete_record st i) i = none := by
  induction st with
  | nil => rfl
  | cons x rest ih =>
    have hnd1 : (x.id :: rest.map (fun e => e.id)).Nodup := by
      simpa only [List.map_cons] using hnd
    have hnd2 := List.nodup_cons.mp hnd1
    by_cases hx : x.id = i
    · rw [delete_record, if_pos hx]
      exact load_none_of_not_mem rest i (hx ▸ hnd2.1)
    · rw [delete_record, if_neg hx, load_element, if_neg hx]
      exact ih hnd2.2

/-- C6 (counterexample): `a` lists `b` twice (a state reached by a single
add); removing `b` erases only the first occurrence, so `a` still lists the
removed id afterwards. -/
theorem remove_element_counterexample :
    (remove_element dupPairStore "b" "t3").1.success = true ∧
    ∃ r, load_element (remove_element dupPairStore "b" "t3").2 "a" = some r ∧
      r.dependencies = ["b"] := by
  refine ⟨by decide,
    (load_element (remove_element dupPairStore "b" "t3").2 "a").get (by decide),
    by decide, by decide⟩

/-- C6 (amended): on a store with unique record ids in which no element
lists the removed id more than once per list, a successful
`remove_element(id)` scrubs the id from every remaining element's
`dependencies` and `dependents` (the scan erases one occurrence per list, so
a duplicated occurrence would survive), deletes the record (a subsequent
`get_element` reports absence), and reports the removed element's prior
dependencies and dependents together with the touched elements. -/
theorem remove_element_scrubs (store : Store) (element_id now : String) (e : CodeElement)
    (hnd : (store.map (fun x => x.id)).Nodup)
    (h : load_element store element_id = some e)
    (hcnt : ∀ o ∈ store, o.dependencies.count element_id ≤ 1 ∧
      o.dependents.count element_id ≤ 1) :
    (remove_element store element_id now).1.success = true ∧
    (remove_element store element_id now).1.dependencies_removed = e.dependencies ∧
    (remove_element store element_id now).1.dependents_updated = e.dependents ∧
    load_element (remove_element store element_id now).2 element_id = none ∧
    (get_element (remove_element store element_id now).2 element_id).success = false ∧
    (∀ k r', load_element (remove_element store element_id now).2 k = some r' →
      element_id ∉ r'.dependencies ∧ element_id ∉ r'.dependents) ∧
    (∀ o ∈ store, o.id ≠ element_id →
      (element_id ∈ o.dependencies →
        (o.id ++ " (removed from dependencies)")
          ∈ (remove_element store element_id now).1.cleaned_references) ∧
      (element_id ∈ o.dependents →
        (o.id ++ " (removed from dependents)")
          ∈ (remove_element store element_id now).1.cleaned_references)) := by
  have heq2 : (remove_element store element_id now).2 =
      delete_record (remove_pass element_id now store store).1 element_id := by
    simp [remove_element, h]
  have hmem : ∀ o ∈ store, o.id ∈ store.map (fun x => x.id) :=
    fun o ho => List.mem_map_of_mem _ ho
  have hids : (remove_pass element_id now store store).1.map (fun x => x.id) =
      store.map (fun x => x.id) :=
    remove_pass_map_id element_id now store store hmem
  have hnone : load_element (remove_element store element_id now).2 element_id = none := by
    rw [heq2]
    exact delete_record_self _ element_id (by rw [hids]; exact hnd)
  refine ⟨by simp [remove_element, h], by simp [remove_element, h],
    by simp [remove_element, h], hnone, by simp [get_element, hnone], ?_, ?_⟩
  · intro k r' hr'
    by_cases hke : k = element_id
    · rw [hke, hnone] at hr'
      exact Option.noConfusion hr'
    · rw [heq2, delete_record_other _ _ _ hke] at hr'
      have hksome : k ∈ (remove_pass element_id now store store).1.map (fun x => x.id) :=
        (load_element_isSome_iff _ k).mp (by rw [hr']; rfl)
      rw [hids] at hksome
      obtain ⟨o, ho, hoid⟩ := List.mem_map.mp hksome
      have hload0 : load_element store o.id = some o := load_self_of_nodup store hnd o ho
      obtain ⟨r2, hr2, hd1, hd2⟩ := remove_pass_load element_id now store store o hnd ho
        (hoid.symm ▸ hke) hload0
      rw [hoid] at hr2
      rw [hr2] at hr'
      have hr'eq : r' = r2 := (Option.some.inj hr').symm
      subst hr'eq
      obtain ⟨hc1, hc2⟩ := hcnt o ho
      constructor
      · rw [hd1]
        by_cases hm : element_id ∈ o.dependencies
        · rw [if_pos hm]
          have : (o.dependencies.erase element_id).count element_id = 0 := by
            rw [List.count_erase_self]
            omega
          exact List.count_eq_zero.mp this
        · rw [if_neg hm]
          exact hm
      · rw [hd2]
        by_cases hm : element_id ∈ o.dependents
        · rw [if_pos hm]
          have : (o.dependents.erase element_id).count element_id = 0 := by
            rw [List.count_erase_self]
            omega
          exact List.count_eq_zero.mp this
        · rw [if_neg hm]
          exact hm
  · intro o ho hone
    have hrep := remove_pass_reports element_id now store store o ho hone
    have hcr : (remove_element store element_id now).1.cleaned_references =
        (remove_pass element_id now store store).2 := by
      simp [remove_element, h]
    rw [hcr]
    exact hrep

/-- C6 (witness): removing `b` from `statsStore` scrubs the reference held
by `a` and deletes the record. -/
theorem remove_element_scrubs_witness :
    (remove_element statsStore "b" "t9").1.success = true ∧
    (remove_element statsStore "b" "t9").1.dependencies_removed = statsElemB.dependencies ∧
    (remove_element statsStore "b" "t9").1.dependents_updated = statsElemB.dependents ∧
    load_element (remove_element statsStore "b" "t9").2 "b" = none ∧
    (get_element (remove_element statsStore "b" "t9").2 "b").success = false ∧
    (∀ k r', load_element (remove_element statsStore "b" "t9").2 k = some r' →
      "b" ∉ r'.dependencies ∧ "b" ∉ r'.dependents) ∧
    (∀ o ∈ statsStore, o.id ≠ "b" →
      ("b" ∈ o.dependencies →
        (o.id ++ " (removed from dependencies)")
          ∈ (remove_element statsStore "b" "t9").1.cleaned_references) ∧
      ("b" ∈ o.dependents →
        (o.id ++ " (removed from dependents)")
          ∈ (remove_element statsStore "b" "t9").1.cleaned_references)) :=
  remove_element_scrubs statsStore "b" "t9" statsElemB (by decide) (by decide) (by decide)

/-! ### C7: statistics lemmas -/

theorem stats_foldl_total (ids : List String) :
    ∀ (l : List CodeElement) (acc : StatsAcc),
      (l.foldl (stats_step ids) acc).total_deps =
        acc.total_deps + (l.map (fun e => e.dependencies.length)).sum := by
  intro l
  induction l with
  | nil => intro acc; simp
  | cons e rest ih =>
    intro acc
    rw [List.foldl_cons, ih]
    show (stats_step ids acc e).total_deps + _ = _
    simp only [stats_step, List.map_cons, List.sum_cons]
    omega

theorem stats_foldl_orphans (ids : List String) :
    ∀ (l : List CodeElement) (acc : StatsAcc),
      (l.foldl (stats_step ids) acc).orphans =
        acc.orphans + l.countP (fun e => e.dependencies.isEmpty && e.dependents.isEmpty) := by
  intro l
  induction l with
  | nil => intro acc; simp
  | cons e rest ih =>
    intro acc
    rw [List.foldl_cons, ih, List.countP_cons]
    have hpt : (stats_step ids acc e).orphans = acc.orphans +
        (if (e.dependencies.isEmpty && e.dependents.isEmpty) = true then 1 else 0) := by
      show acc.orphans + _ = acc.orphans + _
      congr 1
      by_cases h1 : e.dependencies = [] <;> by_cases h2 : e.dependents = [] <;>
        simp [h1, h2, List.length_eq_zero]
    rw [hpt]
    omega

theorem add_missing_id_mem (s : List String) (d x : String) :
    x ∈ add_missing_id s d ↔ x ∈ s ∨ x = d := by
  by_cases hd : d ∈ s
  · rw [add_missing_id, if_pos hd]
    constructor
    · exact Or.inl
    · rintro (h | h)
      · exact h
      · exact h ▸ hd
  · rw [add_missing_id, if_neg hd]
    simp

theorem add_missing_id_nodup (s : List String) (d : String) (h : s.Nodup) :
    (add_missing_id s d).Nodup := by
  by_cases hd : d ∈ s
  · rw [add_missing_id, if_pos hd]
    exact h
  · rw [add_missing_id, if_neg hd]
    simp [List.nodup_append, h, hd]

theorem missing_inner (ids : List String) :
    ∀ (deps : List String) (m : List String), m.Nodup →
      (deps.foldl (fun s d => if d ∈ ids then s else add_missing_id s d) m).Nodup ∧
      ∀ x, x ∈ deps.foldl (fun s d => if d ∈ ids then s else add_missing_id s d) m ↔
        x ∈ m ∨ (x ∉ ids ∧ x ∈ deps) := by
  intro deps
  induction deps with
  | nil =>
    intro m hm
    exact ⟨hm, fun x => by simp⟩
  | cons d rest ih =>
    intro m hm
    rw [List.foldl_cons]
    by_cases hd : d ∈ ids
    · rw [if_pos hd]
      obtain ⟨hnd, hmem⟩ := ih m hm
      refine ⟨hnd, fun x => ?_⟩
      rw [hmem x]
      constructor
      · rintro (h | ⟨h1, h2⟩)
        · exact Or.inl h
        · exact Or.inr ⟨h1, List.mem_cons_of_mem d h2⟩
      · rintro (h | ⟨h1, h2⟩)
        · exact Or.inl h
        · rcases List.mem_cons.mp h2 with h3 | h3
          · exact absurd (h3 ▸ hd) h1
          · exact Or.inr ⟨h1, h3⟩
    · rw [if_neg hd]
      obtain ⟨hnd, hmem⟩ := ih (add_missing_id m d) (add_missing_id_nodup m d hm)
      refine ⟨hnd, fun x => ?_⟩
      rw [hmem x, add_missing_id_mem]
      constructor
      · rintro ((h | h) | ⟨h1, h2⟩)
        · exact Or.inl h
        · exact Or.inr ⟨h ▸ hd, h ▸ List.mem_cons_self d rest⟩
        · exact Or.inr ⟨h1, List.mem_cons_of_mem d h2⟩
      · rintro (h | ⟨h1, h2⟩)
        · exact Or.inl (Or.inl h)
        · rcases List.mem_cons.mp h2 with h3 | h3
          · exact Or.inl (Or.inr h3)
          · exact Or.inr ⟨h1, h3⟩

theorem stats_foldl_missing (ids : List String) :
    ∀ (l : List CodeElement) (acc : StatsAcc), acc.missing.Nodup →
      (l.foldl (stats_step ids) acc).missing.Nodup ∧
      ∀ x, x ∈ (l.foldl (stats_step ids) acc).missing ↔
        x ∈ acc.missing ∨ (x ∉ ids ∧ ∃ e ∈ l, x ∈ e.dependencies) := by
  intro l
  induction l with
  | nil =>
    intro acc hacc
    exact ⟨hacc, fun x => by simp⟩
  | cons e rest ih =>
    intro acc hacc
    rw [List.foldl_cons]
    have hstep : (stats_step ids acc e).missing =
        e.dependencies.foldl (fun s d => if d ∈ ids then s else add_missing_id s d)
          acc.missing := rfl
    obtain ⟨hnd1, hmem1⟩ := missing_inner ids e.dependencies acc.missing hacc
    have hnd1b : (stats_step ids acc e).missing.Nodup := by rw [hstep]; exact hnd1
    obtain ⟨hnd2, hmem2⟩ := ih (stats_step ids acc e) hnd1b
    refine ⟨hnd2, fun x => ?_⟩
    rw [hmem2 x, hstep, hmem1 x]
    constructor
    · rintro ((h | ⟨h1, h2⟩) | ⟨h1, e2, h2, h3⟩)
      · exact Or.inl h
      · exact Or.inr ⟨h1, e, List.mem_cons_self e rest, h2⟩
      · exact Or.inr ⟨h1, e2, List.mem_cons_of_mem e h2, h3⟩
    · rintro (h | ⟨h1, e2, h2, h3⟩)
      · exact Or.inl (Or.inl h)
      · rcases List.mem_cons.mp h2 with h4 | h4
        · exact Or.inl (Or.inr ⟨h1, h4 ▸ h3⟩)
        · exact Or.inr ⟨h1, e2, h4, h3⟩

/-- The distinct-missing set accumulated by the loop has the cardinality of
the spec's distinct dangling-reference set. -/
theorem stats_missing_card (store : Store) :
    ((store.foldl (stats_step (store.map (fun e => e.id)))
      { element_types := [], total_deps := 0, max_deps := 0, no_deps := 0
        no_dependents := 0, orphans := 0, missing := [] } : StatsAcc)).missing.length =
      specMissingCount store := by
  obtain ⟨hnd, hmem⟩ := stats_foldl_missing (store.map (fun e => e.id)) store
    { element_types := [], total_deps := 0, max_deps := 0, no_deps := 0
      no_dependents := 0, orphans := 0, missing := [] } (by simp)
  unfold specMissingCount
  rw [← List.toFinset_card_of_nodup hnd]
  congr 1
  apply Finset.ext
  intro x
  rw [List.mem_toFinset, List.mem_toFinset, hmem x, List.mem_filter]
  constructor
  · rintro (h | ⟨h1, e2, h2, h3⟩)
    · exact absurd h (List.not_mem_nil x)
    · refine ⟨List.mem_flatten.mpr ⟨e2.dependencies, List.mem_map.mpr ⟨e2, h2, rfl⟩, h3⟩, ?_⟩
      have hno : ¬(store.any (fun e => e.id == x) = true) := by
        rw [List.any_eq_true]
        rintro ⟨e3, he3, hbeq⟩
        exact h1 (List.mem_map.mpr ⟨e3, he3, by simpa using hbeq⟩)
      simpa using hno
  · rintro ⟨hf, hb⟩
    obtain ⟨ld, hld, hx⟩ := List.mem_flatten.mp hf
    obtain ⟨e2, he2, hldeq⟩ := List.mem_map.mp hld
    refine Or.inr ⟨?_, e2, he2, by rw [hldeq]; exact hx⟩
    intro hm
    obtain ⟨e3, he3, hide⟩ := List.mem_map.mp hm
    have hany : store.any (fun e => e.id == x) = true :=
      List.any_eq_true.mpr ⟨e3, he3, by simpa using hide⟩
    simp [hany] at hb

/-- C7: on every non-empty store the statistics report the average
dependency count rounded to two decimals and the health score
`max 0 (100 - orphans/total * 20 - distinctMissing/max(totalDeps,1) * 30)`
rounded to one decimal, with the counts given by the specification-side
definitions (orphan = no dependencies and no dependents; missing = distinct
referenced id with no stored record).  Arithmetic is modelled exactly over
the rationals. -/
theorem stats_formulas (store : Store) (h : store ≠ []) :
    ∃ s, (get_knowledge_tree_stats store).stats = some s ∧
      s.dependency_stats.avg_dependencies_per_element =
        pyround ((specTotalDeps store : ℚ) / (store.length : ℚ)) 2 ∧
      s.health_metrics.overall_health_score =
        pyround (max 0 (100 - ((specOrphanCount store : ℚ) / (store.length : ℚ)) * 20 -
          ((specMissingCount store : ℚ) / ((max (specTotalDeps store) 1 : ℕ) : ℚ)) * 30)) 1 := by
  have hne : store.isEmpty = false := by
    cases store with
    | nil => exact absurd rfl h
    | cons x rest => rfl
  have hlen : 0 < store.length := List.length_pos.mpr h
  have htot : (store.foldl (stats_step (store.map (fun e => e.id)))
      { element_types := [], total_deps := 0, max_deps := 0, no_deps := 0
        no_dependents := 0, orphans := 0, missing := [] } : StatsAcc).total_deps =
      specTotalDeps store := by
    rw [stats_foldl_total]
    exact Nat.zero_add _
  have horph : (store.foldl (stats_step (store.map (fun e => e.id)))
      { element_types := [], total_deps := 0, max_deps := 0, no_deps := 0
        no_dependents := 0, orphans := 0, missing := [] } : StatsAcc).orphans =
      specOrphanCount store := by
    rw [stats_foldl_orphans]
    unfold specOrphanCount
    rw [List.countP_eq_length_filter]
    exact Nat.zero_add _
  have hmiss := stats_missing_card store
  have havg : (get_knowledge_tree_stats store).stats.map
      (fun s => s.dependency_stats.avg_dependencies_per_element) =
      some (pyround ((specTotalDeps store : ℚ) / (store.length : ℚ)) 2) := by
    simp only [get_knowledge_tree_stats, hne, Bool.false_eq_true, if_false, Option.map_some']
    rw [if_pos hlen, htot]
  have hhealth : (get_knowledge_tree_stats store).stats.map
      (fun s => s.health_metrics.overall_health_score) =
      some (pyround (max 0 (100 - ((specOrphanCount store : ℚ) / (store.length : ℚ)) * 20 -
        ((specMissingCount store : ℚ) / ((max (specTotalDeps store) 1 : ℕ) : ℚ)) * 30)) 1) := by
    simp only [get_knowledge_tree_stats, hne, Bool.false_eq_true, if_false, Option.map_some']
    rw [htot, horph, hmiss]
  cases hs : (get_knowledge_tree_stats store).stats with
  | none =>
    rw [hs] at havg
    exact absurd havg (by simp)
  | some s =>
    rw [hs] at havg hhealth
    exact ⟨s, rfl, Option.some.inj (by simpa using havg),
      Option.some.inj (by simpa using hhealth)⟩

/-- C7 (witness): the formulas instantiated on the two-element store with
one dangling reference. -/
theorem stats_formulas_witness :
    ∃ s, (get_knowledge_tree_stats statsStore).stats = some s ∧
      s.dependency_stats.avg_dependencies_per_element =
        pyround ((specTotalDeps statsStore : ℚ) / (statsStore.length : ℚ)) 2 ∧
      s.health_metrics.overall_health_score =
        pyround (max 0 (100 - ((specOrphanCount statsStore : ℚ) / (statsStore.length : ℚ)) * 20 -
          ((specMissingCount statsStore : ℚ) /
            ((max (specTotalDeps statsStore) 1 : ℕ) : ℚ)) * 30)) 1 :=
  stats_formulas statsStore (by decide)

end KnowledgeServer
